import Mathlib

/-!
The qn core: cell representation, allocation, root stack and collector.

A shallow embedding of `src/qn.c` and `src/qn.h`.

Target assumed by the embedding: LP64, little-endian, `sizeof(qn_Object*) = 8`,
`sizeof(qn_Object) = 16`, `sizeof(float) = 4`, and `char` read as a byte `0..255`
(every tag that `settype` writes is below 128, where signed and unsigned `char`
agree).

Memory is explicit.  A pointer is the machine address it holds (a `Nat`; the
null pointer is `0`).  Two regions of memory exist for the code under study:
the static cell `nil` and the arena `ctx->objects[0 .. objects_count)`.  A cell
is two 8-byte words `car` and `cdr`; the members of the union `Value` are read
through byte views of these words, so that `tag(x)` (the first byte of `car`)
and `car(x)` (the whole word) overlap exactly as they do in C.

Outcomes.  A call returns a value (`.ok`), or it
* ends the process through `qn_error` (`Err.fatal msg`), or
* accesses memory outside the two regions, or reads or writes a word that is
  not the `car` or `cdr` member of a cell, or indexes `type_names` out of
  bounds: undefined behaviour in C (`Err.fault`), or
* exhausts the fuel given to a loop that the C code does not bound, namely
  `qn_mark`, the chain walks of `equal`, `streq`, `qn_symbol`, and `strlen`
  (`Err.nofuel`).

Host callbacks (`handlers.mark`, `handlers.gc`) are code of the host; the
embedding records each call in `hostlog` and assumes the callback itself leaves
the context alone.  A `float` is its IEEE-754 bit pattern and a C string is the
list of its bytes before the terminating NUL.
-/

namespace Qn

/-! ## Constants of `qn.h` / `qn.c` -/

def QN_TPAIR : Nat := 0
def QN_TFREE : Nat := 1
def QN_TSTRING : Nat := 2
def QN_TNUMBER : Nat := 3
def QN_TSYMBOL : Nat := 4
def QN_TOBJECT : Nat := 5
def QN_TNIL : Nat := 6
def QN_TFUNC : Nat := 7
def QN_TPRIM : Nat := 8
def QN_TFUNCTION : Nat := 9
def QN_TPTR : Nat := 10
def QN_TMACRO : Nat := 11

/-- The macro `STRBUF_SIZE`: `sizeof(qn_Object*) - 1`. -/
def STRBUF_SIZE : Nat := 7
def GCMARKBIT : Nat := 0x2
def GCSTACKSIZE : Nat := 256

/-- Size in bytes of `struct qn_Object` (two 8-byte unions). -/
def OBJSIZE : Nat := 16

/-- The table `type_names` of `qn.c`, in the order it is written there. -/
def type_names : List String :=
  ["nil", "pair", "number", "prim", "function", "string", "symbol", "error",
   "free", "func", "macro", "ptr"]

/-! ## Data model -/

/-- A cell `struct qn_Object { Value car, cdr; }`: each union is its 8-byte
little-endian word. -/
structure qn_Object where
  car : Nat
  cdr : Nat
deriving DecidableEq

/-- The handler table: for each callback, whether one is registered. -/
structure qn_IO where
  error : Bool
  mark : Bool
  gc : Bool
deriving DecidableEq

/-- A call the core made to a host callback, with the object passed. -/
inductive HostCall where
  | mark (o : Nat)
  | gc (o : Nat)
deriving DecidableEq

/-- The fields of `struct qn_Context`, followed by the memory its pointers refer
to: the contents of the arena (`arena i` is `objects[i]`), the address and the
contents of the static cell `nil`, and the log of host callbacks invoked. -/
structure qn_Context where
  handlers : qn_IO
  gcstack : Nat → Nat
  gcstack_idx : Nat
  objects : Nat
  objects_count : Nat
  freelist : Nat
  symlist : Nat
  calllist : Nat
  t : Nat
  nextchar : Nat
  arena : Nat → qn_Object
  nil_addr : Nat
  nil : qn_Object
  hostlog : List HostCall

/-- Ways a call can fail to return. -/
inductive Err where
  | fatal (msg : String)
  | fault
  | nofuel
deriving DecidableEq

/-- The initial value of the static cell: `{{ (void*)(QN_TNIL << 2 | 1) }, { NULL }}`. -/
def nil_init : qn_Object := { car := QN_TNIL <<< 2 ||| 1, cdr := 0 }

/-! ## Memory access -/

/-- Byte `k` of a little-endian word. -/
def byteAt (w k : Nat) : Nat := (w / 256 ^ k) % 256

/-- The word `w` with byte `k` replaced by `v`. -/
def setByte (w k v : Nat) : Nat := w - byteAt w k * 256 ^ k + (v % 256) * 256 ^ k

/-- Byte at offset `off < 16` of a cell. -/
def qn_Object.byte (c : qn_Object) (off : Nat) : Nat :=
  if off < 8 then byteAt c.car off else byteAt c.cdr (off - 8)

/-- The cell with the byte at offset `off < 16` replaced. -/
def qn_Object.withByte (c : qn_Object) (off v : Nat) : qn_Object :=
  if off < 8 then { c with car := setByte c.car off v }
  else { c with cdr := setByte c.cdr (off - 8) v }

/-- Where an address falls. -/
inductive Loc where
  | nilcell (off : Nat)
  | cell (i : Nat) (off : Nat)
deriving DecidableEq

/-- Address decoding for a static cell at `nil_addr` and an arena of
`objects_count` cells at `objects`. -/
def locateAt (nil_addr objects objects_count p : Nat) : Option Loc :=
  if nil_addr ≤ p ∧ p < nil_addr + OBJSIZE then
    some (.nilcell (p - nil_addr))
  else if objects ≤ p ∧ p < objects + OBJSIZE * objects_count then
    some (.cell ((p - objects) / OBJSIZE) ((p - objects) % OBJSIZE))
  else none

def locate (ctx : qn_Context) (p : Nat) : Option Loc :=
  locateAt ctx.nil_addr ctx.objects ctx.objects_count p

def loadByte (ctx : qn_Context) (p : Nat) : Except Err Nat :=
  match locate ctx p with
  | some (.nilcell off) => .ok (ctx.nil.byte off)
  | some (.cell i off) => .ok ((ctx.arena i).byte off)
  | none => .error .fault

def storeByte (ctx : qn_Context) (p v : Nat) : Except Err qn_Context :=
  match locate ctx p with
  | some (.nilcell off) => .ok { ctx with nil := ctx.nil.withByte off v }
  | some (.cell i off) =>
    .ok { ctx with arena := fun j => if j = i then (ctx.arena i).withByte off v else ctx.arena j }
  | none => .error .fault

def loadWord (ctx : qn_Context) (p : Nat) : Except Err Nat :=
  match locate ctx p with
  | some (.nilcell off) =>
    if off = 0 then .ok ctx.nil.car else if off = 8 then .ok ctx.nil.cdr else .error .fault
  | some (.cell i off) =>
    if off = 0 then .ok (ctx.arena i).car
    else if off = 8 then .ok (ctx.arena i).cdr else .error .fault
  | none => .error .fault

def storeWord (ctx : qn_Context) (p v : Nat) : Except Err qn_Context :=
  match locate ctx p with
  | some (.nilcell off) =>
    if off = 0 then .ok { ctx with nil := { ctx.nil with car := v } }
    else if off = 8 then .ok { ctx with nil := { ctx.nil with cdr := v } }
    else .error .fault
  | some (.cell i off) =>
    if off = 0 then
      .ok { ctx with arena := fun j => if j = i then { ctx.arena i with car := v } else ctx.arena j }
    else if off = 8 then
      .ok { ctx with arena := fun j => if j = i then { ctx.arena i with cdr := v } else ctx.arena j }
    else .error .fault
  | none => .error .fault

/-- Store of a 4-byte `float` (given by its bit pattern) into the low half of
the word at `p`. -/
def storeFloat (ctx : qn_Context) (p bits : Nat) : Except Err qn_Context := do
  let w ← loadWord ctx p
  storeWord ctx p (w - w % 2 ^ 32 + bits % 2 ^ 32)

/-! ## The accessor macros -/

/-- The macro `car(x)`: `(x)->car.o`. -/
def car (ctx : qn_Context) (x : Nat) : Except Err Nat := loadWord ctx x
/-- The macro `cdr(x)`: `(x)->cdr.o`. -/
def cdr (ctx : qn_Context) (x : Nat) : Except Err Nat := loadWord ctx (x + 8)
/-- The macro `tag(x)`: `(x)->car.c`. -/
def tag (ctx : qn_Context) (x : Nat) : Except Err Nat := loadByte ctx x
/-- The macro `isnil(x)`: `(x) == &nil`. -/
def isnil (ctx : qn_Context) (x : Nat) : Bool := x == ctx.nil_addr

/-- The macro `type(x)`: `tag(x) & 0x2 ? tag(x) >> 2 : QN_TPAIR`. -/
def type (ctx : qn_Context) (x : Nat) : Except Err Nat := do
  let tg ← tag ctx x
  pure (if tg &&& 0x2 ≠ 0 then tg >>> 2 else QN_TPAIR)

/-- The macro `settype(x, t)`: `tag(x) = (t) << 2 | 1`. -/
def settype (ctx : qn_Context) (x t : Nat) : Except Err qn_Context :=
  storeByte ctx x (t <<< 2 ||| 1)

/-- The macro `strbuf(x)`, read at index `i`: the byte at `&(x)->car.c + 1 + i`. -/
def strbuf_get (ctx : qn_Context) (x i : Nat) : Except Err Nat := loadByte ctx (x + 1 + i)
def strbuf_set (ctx : qn_Context) (x i v : Nat) : Except Err qn_Context :=
  storeByte ctx (x + 1 + i) v

/-! ## Errors, type checks, root stack -/

/-- The function `qn_error` reports `msg` and calls `exit(EXIT_FAILURE)`; it never returns. -/
def qn_error {α : Type} (_ctx : qn_Context) (msg : String) : Except Err α :=
  .error (.fatal msg)

/-- The function `qn_nextarg(ctx, &a)`: returns the value returned and the new `*args`. -/
def qn_nextarg (ctx : qn_Context) (a : Nat) : Except Err (Nat × Nat) := do
  let k ← type ctx a
  if k ≠ QN_TPAIR then
    if isnil ctx a then qn_error ctx "not enough arguments"
    else qn_error ctx "dotted pair in arguments"
  else
    let d ← cdr ctx a
    let r ← car ctx a
    pure (r, d)

def checktype (ctx : qn_Context) (o t : Nat) : Except Err Nat := do
  let k ← type ctx o
  if k ≠ t then
    match type_names[t]?, type_names[k]? with
    | some e, some g => qn_error ctx ("expected " ++ e ++ ", got " ++ g)
    | _, _ => .error .fault
  else pure o

def qn_type (ctx : qn_Context) (o : Nat) : Except Err Nat := type ctx o

def qn_isnil (ctx : qn_Context) (o : Nat) : Bool := isnil ctx o

def qn_pushgc (ctx : qn_Context) (o : Nat) : Except Err qn_Context :=
  if ctx.gcstack_idx ≥ GCSTACKSIZE then qn_error ctx "stack overflow"
  else
    pure { ctx with
      gcstack := fun i => if i = ctx.gcstack_idx then o else ctx.gcstack i
      gcstack_idx := ctx.gcstack_idx + 1 }

def qn_resetgc (ctx : qn_Context) : qn_Context := { ctx with gcstack_idx := 0 }

def qn_savegc (ctx : qn_Context) : Nat := ctx.gcstack_idx

/-! ## Mark and sweep -/

/-- The function `qn_mark`.  The local `car` is `cdr(o)`, read before the mark bit is set; the
`QN_TPAIR` case marks it recursively and falls through to the cases that
continue the loop with `o = cdr(o)`. -/
def qn_mark : Nat → qn_Context → Nat → Except Err qn_Context
  | 0, _, _ => .error .nofuel
  | fuel + 1, ctx, o => do
    let k ← type ctx o
    if k &&& GCMARKBIT ≠ 0 then pure ctx
    else
      let car ← cdr ctx o
      let tg ← tag ctx o
      let ctx ← storeByte ctx o (tg ||| GCMARKBIT)
      let k ← type ctx o
      if k = QN_TPAIR then
        let ctx ← qn_mark fuel ctx car
        let o ← cdr ctx o
        qn_mark fuel ctx o
      else if k = QN_TFUNC ∨ k = QN_TMACRO ∨ k = QN_TSYMBOL ∨ k = QN_TSTRING then
        let o ← cdr ctx o
        qn_mark fuel ctx o
      else if k = QN_TPTR then
        if ctx.handlers.mark then pure { ctx with hostlog := ctx.hostlog ++ [HostCall.mark o] }
        else pure ctx
      else pure ctx

/-- The first loop of `garbagecollector`: `n` iterations starting at index `i`. -/
def gc_markroots (fuel : Nat) : Nat → Nat → qn_Context → Except Err qn_Context
  | 0, _, ctx => pure ctx
  | n + 1, i, ctx => do
    let ctx ← qn_mark fuel ctx (ctx.gcstack i)
    gc_markroots fuel n (i + 1) ctx

/-- The body of the second loop of `garbagecollector` for index `i`. -/
def gc_sweepcell (ctx : qn_Context) (i : Nat) : Except Err qn_Context := do
  let o := ctx.objects + OBJSIZE * i
  let k ← type ctx o
  if k = QN_TFREE then pure ctx
  else
    let a ← car ctx o
    let tg ← tag ctx a
    if (tg ^^^ 0xFF) &&& GCMARKBIT ≠ 0 then
      let k ← type ctx o
      let ctx :=
        if k = QN_TPTR ∧ ctx.handlers.gc = true then
          { ctx with hostlog := ctx.hostlog ++ [HostCall.gc o] }
        else ctx
      let ctx ← settype ctx o QN_TFREE
      let ctx ← storeWord ctx (o + 8) ctx.freelist
      pure { ctx with freelist := o }
    else
      let tg ← tag ctx o
      storeByte ctx o (tg &&& 0xFD)

/-- The second loop of `garbagecollector`: `n` iterations starting at index `i`. -/
def gc_sweep : Nat → Nat → qn_Context → Except Err qn_Context
  | 0, _, ctx => pure ctx
  | n + 1, i, ctx => do
    let ctx ← gc_sweepcell ctx i
    gc_sweep n (i + 1) ctx

def garbagecollector (fuel : Nat) (ctx : qn_Context) : Except Err qn_Context := do
  let ctx ← gc_markroots fuel ctx.gcstack_idx 0 ctx
  let ctx ← qn_mark fuel ctx ctx.symlist
  gc_sweep ctx.objects_count 0 ctx

/-! ## Equality -/

/-- IEEE-754 `==` on two single-precision bit patterns. -/
def float_eq (x y : Nat) : Bool :=
  let isnan := fun (b : Nat) => (b / 2 ^ 23) % 256 == 255 && b % 2 ^ 23 != 0
  !isnan x && !isnan y && (x == y || (x % 2 ^ 31 == 0 && y % 2 ^ 31 == 0))

/-- The macro `number(x)`: the `float` in the low four bytes of `cdr`. -/
def number (ctx : qn_Context) (x : Nat) : Except Err Nat := do
  let w ← loadWord ctx (x + 8)
  pure (w % 2 ^ 32)

/-- The `for` loop of `equal` over two string chains, and the `return a == b`
that follows it. -/
def equal_strloop : Nat → qn_Context → Nat → Nat → Except Err Nat
  | 0, _, _, _ => .error .nofuel
  | fuel + 1, ctx, a, b =>
    if isnil ctx a then pure (if a = b then 1 else 0)
    else do
      let ca ← car ctx a
      let cb ← car ctx b
      if ca ≠ cb then pure 0
      else
        let a ← cdr ctx a
        let b ← cdr ctx b
        equal_strloop fuel ctx a b

def equal (fuel : Nat) (ctx : qn_Context) (a b : Nat) : Except Err Nat :=
  if a = b then pure 1
  else do
    let ta ← type ctx a
    let tb ← type ctx b
    if ta ≠ tb then pure 0
    else if ta = QN_TNUMBER then
      let x ← number ctx a
      let y ← number ctx b
      pure (if float_eq x y then 1 else 0)
    else if ta = QN_TSTRING then equal_strloop fuel ctx a b
    else pure 0

/-- A C string is the list of its bytes; the byte after the last one is the
terminating NUL.  `*s`: -/
def cstr_head (s : List Nat) : Nat := s.headD 0

/-- The inner `for` loop of `streq`: `n` iterations starting at index `i`.
Returns `none` when the loop executes `return 0`, else the advanced `s`. -/
def streq_for (ctx : qn_Context) (o : Nat) : Nat → Nat → List Nat → Except Err (Option (List Nat))
  | 0, _, s => pure (some s)
  | n + 1, i, s => do
    let b ← strbuf_get ctx o i
    if b ≠ cstr_head s then pure none
    else streq_for ctx o n (i + 1) (if cstr_head s ≠ 0 then s.tail else s)

def streq : Nat → qn_Context → Nat → List Nat → Except Err Nat
  | 0, _, _, _ => .error .nofuel
  | fuel + 1, ctx, o, s =>
    if isnil ctx o then pure (if cstr_head s = 0 then 1 else 0)
    else do
      match ← streq_for ctx o STRBUF_SIZE 0 s with
      | none => pure 0
      | some s =>
        let o ← cdr ctx o
        streq fuel ctx o s

/-! ## Allocation and constructors -/

def object (fuel : Nat) (ctx : qn_Context) : Except Err (Nat × qn_Context) := do
  let ctx ←
    if isnil ctx ctx.freelist then do
      let ctx ← garbagecollector fuel ctx
      if isnil ctx ctx.freelist then qn_error ctx "OOM error" else pure ctx
    else pure ctx
  let o := ctx.freelist
  let next ← cdr ctx o
  let ctx := { ctx with freelist := next }
  let ctx ← qn_pushgc ctx o
  pure (o, ctx)

def qn_cons (fuel : Nat) (ctx : qn_Context) (a b : Nat) : Except Err (Nat × qn_Context) := do
  let (o, ctx) ← object fuel ctx
  let ctx ← storeWord ctx o a
  let ctx ← storeWord ctx (o + 8) b
  pure (o, ctx)

def qn_bool (ctx : qn_Context) (b : Nat) : Nat := if b ≠ 0 then ctx.t else ctx.nil_addr

/-- The function `qn_number`; `value` is the bit pattern of the `float`. -/
def qn_number (fuel : Nat) (ctx : qn_Context) (value : Nat) : Except Err (Nat × qn_Context) := do
  let (o, ctx) ← object fuel ctx
  let ctx ← settype ctx o QN_TNUMBER
  let ctx ← storeFloat ctx (o + 8) value
  pure (o, ctx)

/-- The library function `strlen(p)`: the number of bytes before the first zero byte at or after `p`. -/
def strlen : Nat → qn_Context → Nat → Except Err Nat
  | 0, _, _ => .error .nofuel
  | fuel + 1, ctx, p => do
    let b ← loadByte ctx p
    if b = 0 then pure 0
    else
      let n ← strlen fuel ctx (p + 1)
      pure (n + 1)

/-- The function `buildstring(ctx, tail, chr)`; the null pointer is address `0`. -/
def buildstring (fuel : Nat) (ctx : qn_Context) (tail chr : Nat) :
    Except Err (Nat × qn_Context) := do
  let grow ←
    if tail = 0 then pure true
    else do
      let b ← strbuf_get ctx tail (STRBUF_SIZE - 1)
      pure (b == 0)
  let (tail, ctx) ←
    if grow then do
      let (o, ctx) ← qn_cons fuel ctx 0 ctx.nil_addr
      let ctx ← settype ctx o QN_TSTRING
      let ctx ←
        if tail ≠ 0 then do
          let ctx ← storeWord ctx (tail + 8) o
          pure { ctx with gcstack_idx := ctx.gcstack_idx - 1 }
        else pure ctx
      pure (o, ctx)
    else pure (tail, ctx)
  let n ← strlen fuel ctx (tail + 1)
  let ctx ← strbuf_set ctx tail n chr
  pure (tail, ctx)

/-- The `while (*s)` loop of `qn_string`. -/
def qn_string_loop (fuel : Nat) : qn_Context → Nat → List Nat → Except Err qn_Context
  | ctx, _, [] => pure ctx
  | ctx, tail, c :: s =>
    if c = 0 then pure ctx
    else do
      let (tail, ctx) ← buildstring fuel ctx tail c
      qn_string_loop fuel ctx tail s

def qn_string (fuel : Nat) (ctx : qn_Context) (s : List Nat) : Except Err (Nat × qn_Context) := do
  let (o, ctx) ← buildstring fuel ctx 0 0
  let ctx ← qn_string_loop fuel ctx o s
  pure (o, ctx)

/-- The lookup loop of `qn_symbol`: `some v` when it executes `return car(o)`. -/
def qn_symbol_find : Nat → qn_Context → Nat → List Nat → Except Err (Option Nat)
  | 0, _, _, _ => .error .nofuel
  | fuel + 1, ctx, o, s =>
    if isnil ctx o then pure none
    else do
      let d ← cdr ctx o
      let name ← car ctx d
      let r ← streq fuel ctx name s
      if r ≠ 0 then
        let v ← car ctx o
        pure (some v)
      else
        let o ← cdr ctx o
        qn_symbol_find fuel ctx o s

def qn_symbol (fuel : Nat) (ctx : qn_Context) (s : List Nat) : Except Err (Nat × qn_Context) := do
  match ← qn_symbol_find fuel ctx ctx.symlist s with
  | some v => pure (v, ctx)
  | none =>
    let (o, ctx) ← object fuel ctx
    let ctx ← settype ctx o QN_TSYMBOL
    let (str, ctx) ← qn_string fuel ctx s
    let (p, ctx) ← qn_cons fuel ctx str ctx.nil_addr
    let ctx ← storeWord ctx (o + 8) p
    let (l, ctx) ← qn_cons fuel ctx o ctx.symlist
    pure (o, { ctx with symlist := l })

def qn_function (fuel : Nat) (ctx : qn_Context) (fn : Nat) : Except Err (Nat × qn_Context) := do
  let (o, ctx) ← object fuel ctx
  let ctx ← settype ctx o QN_TFUNC
  let ctx ← storeWord ctx (o + 8) fn
  pure (o, ctx)

def qn_ptr (fuel : Nat) (ctx : qn_Context) (ptr : Nat) : Except Err (Nat × qn_Context) := do
  let (obj, ctx) ← object fuel ctx
  let ctx ← settype ctx obj QN_TPTR
  let ctx ← storeWord ctx (obj + 8) ptr
  pure (obj, ctx)

/-- The loop `while (n--) res = qn_cons(ctx, objs[n], res)` of `qn_list`. -/
def qn_list_loop (fuel : Nat) (objs : List Nat) :
    Nat → qn_Context → Nat → Except Err (Nat × qn_Context)
  | 0, ctx, res => pure (res, ctx)
  | n + 1, ctx, res =>
    match objs[n]? with
    | none => .error .fault
    | some x => do
      let (res, ctx) ← qn_cons fuel ctx x res
      qn_list_loop fuel objs n ctx res

def qn_list (fuel : Nat) (ctx : qn_Context) (objs : List Nat) (n : Nat) :
    Except Err (Nat × qn_Context) :=
  qn_list_loop fuel objs n ctx ctx.nil_addr

def qn_car (ctx : qn_Context) (obj : Nat) : Except Err Nat :=
  if isnil ctx obj then pure obj
  else do
    let o ← checktype ctx obj QN_TPAIR
    car ctx o

def qn_cdr (ctx : qn_Context) (obj : Nat) : Except Err Nat :=
  if isnil ctx obj then pure obj
  else do
    let o ← checktype ctx obj QN_TPAIR
    cdr ctx o

/-! ## Well-formedness predicates -/

/-- The address `p` is that of an arena cell `&ctx->objects[i]`, `i < objects_count`;
its index is `(p - objects) / 16`. -/
def isCell (ctx : qn_Context) (p : Nat) : Prop :=
  ctx.objects ≤ p ∧ p < ctx.objects + OBJSIZE * ctx.objects_count ∧ (p - ctx.objects) % OBJSIZE = 0

instance (ctx : qn_Context) (p : Nat) : Decidable (isCell ctx p) := by
  unfold isCell; infer_instance

/-- The address `p` is that of an object of the context: the static `nil` or an
arena cell. -/
def isObj (ctx : qn_Context) (p : Nat) : Prop := p = ctx.nil_addr ∨ isCell ctx p

instance (ctx : qn_Context) (p : Nat) : Decidable (isObj ctx p) := by
  unfold isObj; infer_instance

/-- The static cell and the arena are aligned as `qn_Object` requires and do not
overlap. -/
def Layout (ctx : qn_Context) : Prop :=
  ctx.nil_addr % 8 = 0 ∧ ctx.objects % 8 = 0 ∧
  (ctx.nil_addr + OBJSIZE ≤ ctx.objects ∨
    ctx.objects + OBJSIZE * ctx.objects_count ≤ ctx.nil_addr)

instance (ctx : qn_Context) : Decidable (Layout ctx) := by
  unfold Layout; infer_instance

/-! ## Concrete contexts -/

/-- A context over an arena of `n` cells at address `0x2000`, with the static
`nil` at `0x1000` in its initial state.  Every cell is on the free list: cell
`i` carries the tag written by `settype(o, QN_TFREE)` and its `cdr` links to
cell `i - 1` (cell `0` to `nil`); `freelist` is the last cell.  The root stack
and the symbol list are empty and no handler is registered. -/
def fresh (n : Nat) : qn_Context :=
  { handlers := { error := false, mark := false, gc := false }
    gcstack := fun _ => 0
    gcstack_idx := 0
    objects := 0x2000
    objects_count := n
    freelist := if n = 0 then 0x1000 else 0x2000 + OBJSIZE * (n - 1)
    symlist := 0x1000
    calllist := 0x1000
    t := 0x1000
    nextchar := 0
    arena := fun i =>
      { car := QN_TFREE <<< 2 ||| 1, cdr := if i = 0 then 0x1000 else 0x2000 + OBJSIZE * (i - 1) }
    nil_addr := 0x1000
    nil := nil_init
    hostlog := [] }

/-- The bytes of the C string `"foo"`. -/
def str_foo : List Nat := [102, 111, 111]

/-- The bytes of the C string `"bar"`. -/
def str_bar : List Nat := [98, 97, 114]

/-- The bit pattern of the `float` `1.0f`. -/
def float_one : Nat := 0x3f800000

/-! ## Auxiliary predicates used in the proofs -/

/-- The context an allocation returns from a context `c0` whose free list is
not empty: the head cell is unlinked from the free list, pushed on the root
stack, and holds `cell`. -/
def allocated (c0 : qn_Context) (cell : qn_Object) : qn_Context :=
  { c0 with
    freelist := (c0.arena ((c0.freelist - c0.objects) / 16)).cdr
    gcstack := fun i => if i = c0.gcstack_idx then c0.freelist else c0.gcstack i
    gcstack_idx := c0.gcstack_idx + 1
    arena := fun j => if j = (c0.freelist - c0.objects) / 16 then cell else c0.arena j }

/-- List segment `lseg ctx p cells q`: following `cdr` links from `p` visits exactly the
arena cells `cells`, in order, and arrives at `q`. -/
def lseg (ctx : qn_Context) : Nat → List Nat → Nat → Prop
  | p, [], q => p = q
  | p, x :: xs, q =>
    p = x ∧ isCell ctx x ∧ lseg ctx (ctx.arena ((x - ctx.objects) / 16)).cdr xs q

instance lseg_decidable (ctx : qn_Context) : ∀ (l : List Nat) (p q : Nat), Decidable (lseg ctx p l q)
  | [], p, q => by unfold lseg; infer_instance
  | x :: xs, p, q => by
    unfold lseg
    have := lseg_decidable ctx xs (ctx.arena ((x - ctx.objects) / 16)).cdr q
    infer_instance

/-- The outcome `r` is not a fatal error, and if it is a value the value
satisfies `P`. -/
def Sat {α : Type} (P : α → Prop) : Except Err α → Prop
  | .ok a => P a
  | .error (.fatal _) => False
  | .error _ => True

/-- Context `c2` has the fields of `c1` outside the memory contents, the free
list head and the host log. -/
structure SameFrame (c1 c2 : qn_Context) : Prop where
  handlers : c2.handlers = c1.handlers
  gcstack : c2.gcstack = c1.gcstack
  gcstack_idx : c2.gcstack_idx = c1.gcstack_idx
  objects : c2.objects = c1.objects
  objects_count : c2.objects_count = c1.objects_count
  symlist : c2.symlist = c1.symlist
  nil_addr : c2.nil_addr = c1.nil_addr

/-- The outcome `r` of a constructor called in `ctx`: it returns the head of
the free list of `ctx`; afterwards the free list consists of the cells `rest`,
the root stack is one entry deeper, its top entry is the returned object and
the entries below are those of `ctx`. -/
def PopsHead (ctx : qn_Context) (rest : List Nat) (r : Except Err (Nat × qn_Context)) : Prop :=
  ∃ c, r = .ok (ctx.freelist, c) ∧ lseg c c.freelist rest c.nil_addr ∧
    qn_savegc c = qn_savegc ctx + 1 ∧ c.gcstack (qn_savegc ctx) = ctx.freelist ∧
    ∀ i, i < qn_savegc ctx → c.gcstack i = ctx.gcstack i

/-- A context with an arena of two cells holding two pairs that are no longer
rooted: `b = qn_cons(ctx, nil, nil)` and `a = qn_cons(ctx, b, nil)` built in
`fresh 2`, followed by `qn_resetgc`.  Its free list is empty. -/
def two_pairs : qn_Context :=
  match (do
      let (b, c) ← qn_cons 0 (fresh 2) (fresh 2).nil_addr (fresh 2).nil_addr
      let (_, c) ← qn_cons 0 c b c.nil_addr
      pure (qn_resetgc c) : Except Err qn_Context) with
  | .ok c => c
  | .error _ => fresh 0

/-- Iterated `qn_cdr`, `nth_cdr c i p`: the result of `i` successive `qn_cdr` steps from `p`. -/
def nth_cdr (c : qn_Context) : Nat → Nat → Except Err Nat
  | 0, p => .ok p
  | i + 1, p => do
    let d ← qn_cdr c p
    nth_cdr c i d

/-- Pair list `plist c p nodes elems`: `p` heads a chain of the arena cells `nodes`,
linked through `cdr` and ending at `nil`, whose `car` words are `elems`. -/
def plist (c : qn_Context) : Nat → List Nat → List Nat → Prop
  | p, [], [] => p = c.nil_addr
  | p, x :: xs, e :: es =>
    p = x ∧ isCell c x ∧ (c.arena ((x - c.objects) / 16)).car = e ∧
      plist c (c.arena ((x - c.objects) / 16)).cdr xs es
  | _, _, _ => False

/-- A context with eight cells in which the numbers `1.0f`, `2.0f`, `3.0f` have
been built, at `0x2070`, `0x2060` and `0x2050`; five cells remain free. -/
def three_numbers : qn_Context :=
  match (do
      let (_, c) ← qn_number 0 (fresh 8) 0x3f800000
      let (_, c) ← qn_number 0 c 0x40000000
      let (_, c) ← qn_number 0 c 0x40400000
      pure c : Except Err qn_Context) with
  | .ok c => c
  | .error _ => fresh 0

/-- A context with three cells and a registered `gc` handler, reached through
the constructors: three pairs `p2 = (nil . nil)`, `p1 = (p2 . nil)`,
`p0 = (p1 . nil)` are built and unrooted; `qn_ptr(ctx, 0x7000)` then finds the
free list empty, collects (which reclaims `p0` and `p1`) and returns the
foreign-pointer cell at `0x2010`; a further pair takes the last free cell; the
root stack is reset.  The free list is empty. -/
def ptr_scene : qn_Context :=
  match (do
      let c0 : qn_Context :=
        { fresh 3 with handlers := { error := false, mark := false, gc := true } }
      let (p2, c) ← qn_cons 8 c0 c0.nil_addr c0.nil_addr
      let (p1, c) ← qn_cons 8 c p2 c.nil_addr
      let (_, c) ← qn_cons 8 c p1 c.nil_addr
      let c := qn_resetgc c
      let (_, c) ← qn_ptr 8 c 0x7000
      let c := qn_resetgc c
      let (_, c) ← qn_cons 8 c c.nil_addr c.nil_addr
      pure (qn_resetgc c) : Except Err qn_Context) with
  | .ok c => c
  | .error _ => fresh 0

/-- A context with one cell holding the pair `p = (nil . p)`, whose rest slot
references the pair itself; `p` is on the root stack. -/
def self_loop : qn_Context :=
  { fresh 1 with
    freelist := 0x1000
    gcstack := fun _ => 0x2000
    gcstack_idx := 1
    arena := fun _ => { car := 0x1000, cdr := 0x2000 } }

/-- The tag byte of cell `b` is that of cell `a`, possibly with the mark bit set
in addition. -/
def Marked (a b : qn_Object) : Prop :=
  b.car % 256 = a.car % 256 ∨ b.car % 256 = a.car % 256 ||| GCMARKBIT

/-- Between contexts `c1` and `c2` the tag byte of `nil` and of every arena cell
has changed at most by the mark bit being set. -/
def TagsMarked (c1 c2 : qn_Context) : Prop :=
  Marked c1.nil c2.nil ∧ ∀ j, Marked (c1.arena j) (c2.arena j)

/-- The effect of sweeping cell `i` from context `c1` to `c2`: `nil` and the other
cells are untouched, and cell `i` either has its mark bit clear or was skipped
as a free cell carrying the mark bit. -/
def SweptCell (c1 c2 : qn_Context) (i : Nat) : Prop :=
  c2.nil = c1.nil ∧ (∀ j, j ≠ i → c2.arena j = c1.arena j) ∧
  ((c2.arena i).car % 256 &&& GCMARKBIT = 0 ∨
    (c2.arena i = c1.arena i ∧ ((c1.arena i).car % 256) >>> 2 = QN_TFREE ∧
      (c1.arena i).car % 256 &&& GCMARKBIT ≠ 0))

/-- The effect of sweeping the cells `i .. i + n - 1` from context `c1` to `c2`. -/
def SweptRange (c1 c2 : qn_Context) (i n : Nat) : Prop :=
  c2.nil = c1.nil ∧ (∀ j, j < i ∨ i + n ≤ j → c2.arena j = c1.arena j) ∧
  ∀ j, i ≤ j → j < i + n →
    ((c2.arena j).car % 256 &&& GCMARKBIT = 0 ∨
      (c2.arena j = c1.arena j ∧ ((c1.arena j).car % 256) >>> 2 = QN_TFREE ∧
        (c1.arena j).car % 256 &&& GCMARKBIT ≠ 0))

/-- What a collection from `c1` to `c2` does to tag bytes: the tag byte of `nil`
changes at most by the mark bit being set, and every arena cell either has its
mark bit clear or was tagged free before and after. -/
def Collected (c1 c2 : qn_Context) : Prop :=
  Marked c1.nil c2.nil ∧
  ∀ j, j < c1.objects_count →
    ((c2.arena j).car % 256 &&& GCMARKBIT = 0 ∨
      (((c1.arena j).car % 256) >>> 2 = QN_TFREE ∧ ((c2.arena j).car % 256) >>> 2 = QN_TFREE))

/-- A context with one cell holding the pair `qn_cons(ctx, nil, nil)`, built in
`fresh 1`; the pair is the one entry of the root stack and the free list is
empty. -/
def rooted_pair : qn_Context :=
  match qn_cons 0 (fresh 1) (fresh 1).nil_addr (fresh 1).nil_addr with
  | .ok (_, c) => c
  | .error _ => fresh 0

/-- A context with six cells, all in use: the numbers `1.0f`, `2.0f`, `3.0f` at
`0x2050`, `0x2040`, `0x2030` and the list `(1 2 3)` built from them by
`qn_list`, whose head is `0x2000`.  All six objects are on the root stack and
the free list is empty. -/
def list_123 : qn_Context :=
  match (do
      let (n1, c) ← qn_number 0 (fresh 6) 0x3f800000
      let (n2, c) ← qn_number 0 c 0x40000000
      let (n3, c) ← qn_number 0 c 0x40400000
      let (_, c) ← qn_list 0 c [n1, n2, n3] 3
      pure c : Except Err qn_Context) with
  | .ok c => c
  | .error _ => fresh 0

/-- A context with two cells reached through the constructors and `qn_car`
alone: two pairs `(nil . nil)` fill the arena and stay rooted; a third
`qn_cons` finds the free list empty and collects, and the sweep puts both
rooted pairs on the free list, retagged free; the third pair takes `0x2010`;
`qn_car` of the second pair `0x2000`, which is still on the root stack, returns
its retagged `car` word; a fourth `qn_cons` with that word as first slot takes
`0x2000`.  The free list is empty and the tag byte of `0x2000` is
`QN_TFREE << 2 | 1`. -/
def stale_free : qn_Context :=
  match (do
      let (_, c) ← qn_cons 8 (fresh 2) (fresh 2).nil_addr (fresh 2).nil_addr
      let (p, c) ← qn_cons 8 c c.nil_addr c.nil_addr
      let (_, c) ← qn_cons 8 c c.nil_addr c.nil_addr
      let v ← qn_car c p
      let (_, c) ← qn_cons 8 c v c.nil_addr
      pure c : Except Err qn_Context) with
  | .ok c => c
  | .error _ => fresh 0
/-! ## Memory lemmas -/

theorem locate_nil (ctx : qn_Context) :
    locateAt ctx.nil_addr ctx.objects ctx.objects_count ctx.nil_addr = some (.nilcell 0) := by
  simp [locateAt, OBJSIZE]

theorem locate_nil8 (ctx : qn_Context) :
    locateAt ctx.nil_addr ctx.objects ctx.objects_count (ctx.nil_addr + 8) = some (.nilcell 8) := by
  simp [locateAt, OBJSIZE]

theorem locate_cell {ctx : qn_Context} {p : Nat} (hL : Layout ctx) (hp : isCell ctx p) :
    locateAt ctx.nil_addr ctx.objects ctx.objects_count p
      = some (.cell ((p - ctx.objects) / 16) 0) := by
  obtain ⟨_, _, hd⟩ := hL
  obtain ⟨h1, h2, h3⟩ := hp
  simp only [OBJSIZE] at *
  have hn : ¬ (ctx.nil_addr ≤ p ∧ p < ctx.nil_addr + 16) := by omega
  simp only [locateAt, OBJSIZE]
  rw [if_neg hn, if_pos ⟨h1, h2⟩, h3]

theorem locate_cell8 {ctx : qn_Context} {p : Nat} (hL : Layout ctx) (hp : isCell ctx p) :
    locateAt ctx.nil_addr ctx.objects ctx.objects_count (p + 8)
      = some (.cell ((p - ctx.objects) / 16) 8) := by
  obtain ⟨_, _, hd⟩ := hL
  obtain ⟨h1, h2, h3⟩ := hp
  simp only [OBJSIZE] at *
  have hn : ¬ (ctx.nil_addr ≤ p + 8 ∧ p + 8 < ctx.nil_addr + 16) := by omega
  have e1 : (p + 8 - ctx.objects) / 16 = (p - ctx.objects) / 16 := by omega
  have e2 : (p + 8 - ctx.objects) % 16 = 8 := by omega
  have h4 : ctx.objects ≤ p + 8 := by omega
  have h5 : p + 8 < ctx.objects + 16 * ctx.objects_count := by omega
  simp only [locateAt, OBJSIZE]
  rw [if_neg hn, if_pos ⟨h4, h5⟩, e1, e2]

theorem isCell_ne_nil {ctx : qn_Context} {p : Nat} (hL : Layout ctx) (hp : isCell ctx p) :
    p ≠ ctx.nil_addr := by
  obtain ⟨_, _, hd⟩ := hL
  obtain ⟨h1, h2, h3⟩ := hp
  simp only [OBJSIZE] at *
  omega

/-! ## Allocation from a non-empty free list -/

theorem object_ok (fuel : Nat) {ctx : qn_Context} (hL : Layout ctx)
    (hf : isCell ctx ctx.freelist) (hroom : ctx.gcstack_idx < GCSTACKSIZE) :
    object fuel ctx = .ok (ctx.freelist,
      { ctx with
        freelist := (ctx.arena ((ctx.freelist - ctx.objects) / 16)).cdr
        gcstack := fun i => if i = ctx.gcstack_idx then ctx.freelist else ctx.gcstack i
        gcstack_idx := ctx.gcstack_idx + 1 }) := by
  have hne : isnil ctx ctx.freelist = false := by
    simpa [isnil] using isCell_ne_nil hL hf
  have hr : ¬ ctx.gcstack_idx ≥ GCSTACKSIZE := by omega
  simp [object, hne, cdr, loadWord, locate, locate_cell8 hL hf, qn_pushgc, hr, bind, Except.bind,
    pure, Except.pure]

theorem qn_cons_ok (fuel : Nat) {ctx : qn_Context} (a b : Nat) (hL : Layout ctx)
    (hf : isCell ctx ctx.freelist) (hroom : ctx.gcstack_idx < GCSTACKSIZE) :
    qn_cons fuel ctx a b = .ok (ctx.freelist, allocated ctx ⟨a, b⟩) := by
  have h0 := locate_cell hL hf
  have h8 := locate_cell8 hL hf
  simp only [qn_cons, object_ok fuel hL hf hroom, bind, Except.bind, storeWord, locate, h0, h8,
    pure, Except.pure]
  simp [h8, allocated]
  funext j
  split <;> simp_all

/-! ## What the collector leaves alone -/

theorem Sat.bind {α β : Type} {x : Except Err α} {f : α → Except Err β} {P : α → Prop}
    {Q : β → Prop} (hx : Sat P x) (hf : ∀ a, P a → Sat Q (f a)) : Sat Q (x >>= f) := by
  cases x with
  | ok a => exact hf a hx
  | error e => cases e <;> simp_all [Sat, Bind.bind, Except.bind]

theorem Sat.mono {α : Type} {x : Except Err α} {P Q : α → Prop} (hx : Sat P x)
    (h : ∀ a, P a → Q a) : Sat Q x := by
  cases x with
  | ok a => exact h a hx
  | error e => cases e <;> simp_all [Sat]

theorem Sat.of_ok {α : Type} {x : Except Err α} {P : α → Prop} {a : α} (hx : Sat P x)
    (h : x = .ok a) : P a := by
  subst h; exact hx

theorem Sat.not_fatal {α : Type} {x : Except Err α} {P : α → Prop} (hx : Sat P x) (m : String) :
    x ≠ .error (.fatal m) := by
  intro h; subst h; exact hx

theorem Sat.pure {α : Type} {P : α → Prop} {a : α} (h : P a) :
    Sat P (Pure.pure a : Except Err α) := h

theorem SameFrame.refl (c : qn_Context) : SameFrame c c :=
  ⟨rfl, rfl, rfl, rfl, rfl, rfl, rfl⟩

theorem SameFrame.trans {c1 c2 c3 : qn_Context} (h1 : SameFrame c1 c2) (h2 : SameFrame c2 c3) :
    SameFrame c1 c3 :=
  ⟨h2.handlers.trans h1.handlers, h2.gcstack.trans h1.gcstack,
    h2.gcstack_idx.trans h1.gcstack_idx, h2.objects.trans h1.objects,
    h2.objects_count.trans h1.objects_count, h2.symlist.trans h1.symlist,
    h2.nil_addr.trans h1.nil_addr⟩

theorem sat_loadByte (c : qn_Context) (p : Nat) : Sat (fun _ => True) (loadByte c p) := by
  unfold loadByte; split <;> simp [Sat]

theorem sat_loadWord (c : qn_Context) (p : Nat) : Sat (fun _ => True) (loadWord c p) := by
  unfold loadWord; split <;> (try split) <;> (try split) <;> simp [Sat]

theorem sat_storeByte (c : qn_Context) (p v : Nat) :
    Sat (fun c2 => SameFrame c c2 ∧ c2.freelist = c.freelist) (storeByte c p v) := by
  unfold storeByte; split <;> simp [Sat, SameFrame.refl] <;> exact ⟨rfl, rfl, rfl, rfl, rfl, rfl, rfl⟩

theorem sat_storeWord (c : qn_Context) (p v : Nat) :
    Sat (fun c2 => SameFrame c c2 ∧ c2.freelist = c.freelist) (storeWord c p v) := by
  unfold storeWord
  split <;> (try split) <;> (try split) <;> simp [Sat] <;>
    exact ⟨rfl, rfl, rfl, rfl, rfl, rfl, rfl⟩

theorem sat_type (c : qn_Context) (p : Nat) : Sat (fun _ => True) (type c p) := by
  unfold type tag
  exact Sat.bind (sat_loadByte c p) (fun _ _ => trivial)

theorem sat_qn_mark : ∀ (fuel : Nat) (c : qn_Context) (o : Nat),
    Sat (fun c2 => SameFrame c c2 ∧ c2.freelist = c.freelist) (qn_mark fuel c o)
  | 0, c, o => by simp [qn_mark, Sat]
  | fuel + 1, c, o => by
    simp only [qn_mark]
    refine Sat.bind (sat_type c o) (fun k _ => ?_)
    split
    · exact ⟨SameFrame.refl c, rfl⟩
    · refine Sat.bind (sat_loadWord c _) (fun d _ => ?_)
      refine Sat.bind (sat_loadByte c _) (fun tg _ => ?_)
      refine Sat.bind (sat_storeByte c _ _) (fun c1 h1 => ?_)
      refine Sat.bind (sat_type c1 o) (fun k1 _ => ?_)
      split
      · refine Sat.bind (sat_qn_mark fuel c1 d) (fun c2 h2 => ?_)
        refine Sat.bind (sat_loadWord c2 _) (fun d2 _ => ?_)
        exact (sat_qn_mark fuel c2 d2).mono
          (fun c3 h3 => ⟨h1.1.trans (h2.1.trans h3.1), by rw [h3.2, h2.2, h1.2]⟩)
      · split
        · refine Sat.bind (sat_loadWord c1 _) (fun d2 _ => ?_)
          exact (sat_qn_mark fuel c1 d2).mono
            (fun c3 h3 => ⟨h1.1.trans h3.1, by rw [h3.2, h1.2]⟩)
        · split
          · split
            · exact ⟨⟨h1.1.handlers, h1.1.gcstack, h1.1.gcstack_idx, h1.1.objects,
                h1.1.objects_count, h1.1.symlist, h1.1.nil_addr⟩, h1.2⟩
            · exact h1
          · exact h1

theorem sat_gc_markroots (fuel : Nat) : ∀ (n i : Nat) (c : qn_Context),
    Sat (fun c2 => SameFrame c c2 ∧ c2.freelist = c.freelist) (gc_markroots fuel n i c)
  | 0, i, c => ⟨SameFrame.refl c, rfl⟩
  | n + 1, i, c => by
    simp only [gc_markroots]
    refine Sat.bind (sat_qn_mark fuel c _) (fun c1 h1 => ?_)
    exact (sat_gc_markroots fuel n (i + 1) c1).mono
      (fun c2 h2 => ⟨h1.1.trans h2.1, by rw [h2.2, h1.2]⟩)

theorem sat_gc_sweepcell (c : qn_Context) (i : Nat) :
    Sat (fun c2 => SameFrame c c2 ∧
      (c2.freelist = c.freelist ∨ c2.freelist = c.objects + OBJSIZE * i)) (gc_sweepcell c i) := by
  simp only [gc_sweepcell]
  refine Sat.bind (sat_type c _) (fun k _ => ?_)
  split
  · exact ⟨SameFrame.refl c, Or.inl rfl⟩
  · refine Sat.bind (sat_loadWord c _) (fun a _ => ?_)
    refine Sat.bind (sat_loadByte c _) (fun tg _ => ?_)
    split
    · refine Sat.bind (sat_type c _) (fun k1 _ => ?_)
      simp only [settype]
      refine Sat.bind (P := fun c2 => SameFrame c c2) ?_ (fun c1 h1 => ?_)
      · split
        · exact (sat_storeByte _ _ _).mono (fun c2 h2 =>
            ⟨h2.1.handlers, h2.1.gcstack, h2.1.gcstack_idx, h2.1.objects,
              h2.1.objects_count, h2.1.symlist, h2.1.nil_addr⟩)
        · exact (sat_storeByte _ _ _).mono (fun c2 h2 => h2.1)
      · refine Sat.bind (sat_storeWord c1 _ _) (fun c2 h2 => ?_)
        exact ⟨⟨(h1.trans h2.1).handlers, (h1.trans h2.1).gcstack, (h1.trans h2.1).gcstack_idx,
          (h1.trans h2.1).objects, (h1.trans h2.1).objects_count, (h1.trans h2.1).symlist,
          (h1.trans h2.1).nil_addr⟩, Or.inr rfl⟩
    · refine Sat.bind (sat_loadByte c _) (fun tg2 _ => ?_)
      exact (sat_storeByte _ _ _).mono (fun c2 h2 => ⟨h2.1, Or.inl h2.2⟩)

theorem sat_gc_sweep : ∀ (n i : Nat) (c : qn_Context),
    Sat (fun c2 => SameFrame c c2 ∧
      (c2.freelist = c.freelist ∨
        ∃ j, i ≤ j ∧ j < i + n ∧ c2.freelist = c.objects + OBJSIZE * j)) (gc_sweep n i c)
  | 0, i, c => ⟨SameFrame.refl c, Or.inl rfl⟩
  | n + 1, i, c => by
    simp only [gc_sweep]
    refine Sat.bind (sat_gc_sweepcell c i) (fun c1 h1 => ?_)
    refine (sat_gc_sweep n (i + 1) c1).mono (fun c2 h2 => ⟨h1.1.trans h2.1, ?_⟩)
    rcases h2.2 with h | ⟨j, hj1, hj2, hj⟩
    · rcases h1.2 with h' | h'
      · exact Or.inl (h.trans h')
      · exact Or.inr ⟨i, le_refl i, by omega, h.trans h'⟩
    · exact Or.inr ⟨j, by omega, by omega, by rw [hj, h1.1.objects]⟩

theorem sat_garbagecollector (fuel : Nat) (c : qn_Context) :
    Sat (fun c2 => SameFrame c c2 ∧
      (c2.freelist = c.freelist ∨
        ∃ j, j < c.objects_count ∧ c2.freelist = c.objects + OBJSIZE * j))
      (garbagecollector fuel c) := by
  simp only [garbagecollector]
  refine Sat.bind (sat_gc_markroots fuel _ 0 c) (fun c1 h1 => ?_)
  refine Sat.bind (sat_qn_mark fuel c1 _) (fun c2 h2 => ?_)
  refine (sat_gc_sweep _ 0 c2).mono (fun c3 h3 => ⟨h1.1.trans (h2.1.trans h3.1), ?_⟩)
  rcases h3.2 with h | ⟨j, _, hj2, hj⟩
  · exact Or.inl (by rw [h, h2.2, h1.2])
  · refine Or.inr ⟨j, ?_, ?_⟩
    · have := (h1.1.trans h2.1).objects_count
      omega
    · rw [hj, (h1.1.trans h2.1).objects]

theorem Layout.frame {c1 c2 : qn_Context} (hL : Layout c1) (h : SameFrame c1 c2) : Layout c2 := by
  unfold Layout at *
  rw [h.nil_addr, h.objects, h.objects_count]
  exact hL

theorem isCell.same_frame {c1 c2 : qn_Context} {p : Nat} (hp : isCell c1 p) (h : SameFrame c1 c2) :
    isCell c2 p := by
  unfold isCell at *
  rw [h.objects, h.objects_count]
  exact hp

theorem isCell_cellAddr (c : qn_Context) {j : Nat} (hj : j < c.objects_count) :
    isCell c (c.objects + OBJSIZE * j) := by
  unfold isCell
  simp only [OBJSIZE]
  refine ⟨by omega, by omega, by omega⟩

/-- When the free list is empty, `object` is a collection followed by the
emptiness test and an allocation that does not collect. -/
theorem object_gc (fuel : Nat) {ctx : qn_Context} (hnil : isnil ctx ctx.freelist = true) :
    object fuel ctx = (garbagecollector fuel ctx >>= fun c0 =>
      if isnil c0 c0.freelist then .error (.fatal "OOM error") else object fuel c0) := by
  simp only [object, hnil, if_true, bind, Except.bind, qn_error]
  cases hg : garbagecollector fuel ctx with
  | error e => rfl
  | ok c0 =>
    by_cases h0 : isnil c0 c0.freelist = true
    · simp [h0]
    · simp [h0, pure, Except.pure]

theorem qn_cons_gc (fuel : Nat) {ctx : qn_Context} (a b : Nat)
    (hnil : isnil ctx ctx.freelist = true) :
    qn_cons fuel ctx a b = (garbagecollector fuel ctx >>= fun c0 =>
      if isnil c0 c0.freelist then .error (.fatal "OOM error") else qn_cons fuel c0 a b) := by
  simp only [qn_cons, object_gc fuel hnil, bind, Except.bind]
  cases hg : garbagecollector fuel ctx with
  | error e => rfl
  | ok c0 =>
    by_cases h0 : isnil c0 c0.freelist = true
    · simp [h0]
    · simp [h0]

theorem gc_freelist {fuel : Nat} {ctx c0 : qn_Context}
    (hg : garbagecollector fuel ctx = .ok c0) (hnil : isnil ctx ctx.freelist = true)
    (h0 : isnil c0 c0.freelist = false) : SameFrame ctx c0 ∧ isCell c0 c0.freelist := by
  have h := (sat_garbagecollector fuel ctx).of_ok hg
  refine ⟨h.1, ?_⟩
  rcases h.2 with h2 | ⟨j, hj, h2⟩
  · simp only [isnil, beq_iff_eq, beq_eq_false_iff_ne, ne_eq] at hnil h0
    rw [h2, hnil, h.1.nil_addr] at h0
    exact absurd rfl h0
  · rw [h2]
    exact (isCell_cellAddr ctx hj).same_frame h.1

theorem object_noroom (fuel : Nat) {ctx : qn_Context} (hL : Layout ctx)
    (hf : isCell ctx ctx.freelist) (hroom : ¬ ctx.gcstack_idx < GCSTACKSIZE) :
    object fuel ctx = .error (.fatal "stack overflow") := by
  have hne : isnil ctx ctx.freelist = false := by
    simpa [isnil] using isCell_ne_nil hL hf
  have hr : ctx.gcstack_idx ≥ GCSTACKSIZE := by omega
  simp [object, hne, cdr, loadWord, locate, locate_cell8 hL hf, qn_pushgc, hr, bind, Except.bind,
    pure, Except.pure, qn_error]

theorem qn_cons_result {fuel : Nat} {ctx : qn_Context} {a b o : Nat} {c : qn_Context}
    (hL : Layout ctx) (hfl : isObj ctx ctx.freelist) (h : qn_cons fuel ctx a b = .ok (o, c)) :
    ∃ c0, SameFrame ctx c0 ∧ isCell c0 c0.freelist ∧ c0.gcstack_idx < GCSTACKSIZE ∧
      o = c0.freelist ∧ c = allocated c0 ⟨a, b⟩ := by
  have key : ∀ c0 : qn_Context, Layout c0 → isCell c0 c0.freelist →
      qn_cons fuel c0 a b = .ok (o, c) →
      c0.gcstack_idx < GCSTACKSIZE ∧ o = c0.freelist ∧ c = allocated c0 ⟨a, b⟩ := by
    intro c0 hL0 hf0 h0
    by_cases hroom : c0.gcstack_idx < GCSTACKSIZE
    · rw [qn_cons_ok fuel a b hL0 hf0 hroom] at h0
      simp only [Except.ok.injEq, Prod.mk.injEq] at h0
      exact ⟨hroom, h0.1.symm, h0.2.symm⟩
    · simp [qn_cons, object_noroom fuel hL0 hf0 hroom, bind, Except.bind] at h0
  by_cases hnil : isnil ctx ctx.freelist = true
  · rw [qn_cons_gc fuel a b hnil] at h
    cases hg : garbagecollector fuel ctx with
    | error e => simp [hg, bind, Except.bind] at h
    | ok c0 =>
      simp only [hg, bind, Except.bind] at h
      by_cases h0 : isnil c0 c0.freelist = true
      · simp [h0] at h
      · simp only [h0] at h
        have hfr := gc_freelist hg hnil (by simpa using h0)
        obtain ⟨h1, h2, h3⟩ := key c0 (hL.frame hfr.1) hfr.2 (by simpa using h)
        exact ⟨c0, hfr.1, hfr.2, h1, h2, h3⟩
  · have hf : isCell ctx ctx.freelist := by
      rcases hfl with h' | h'
      · simp [isnil, h'] at hnil
      · exact h'
    obtain ⟨h1, h2, h3⟩ := key ctx hL hf h
    exact ⟨ctx, SameFrame.refl ctx, hf, h1, h2, h3⟩
/-! ## Reading back a pair -/

set_option maxRecDepth 100000 in
theorem low_bits_of_aligned : ∀ x : Nat, x < 256 → x % 4 = 0 → x &&& 2 = 0 := by decide

theorem byteAt_zero (w : Nat) : byteAt w 0 = w % 256 := by simp [byteAt]

theorem tag_bit_of_aligned {a : Nat} (ha : a % 4 = 0) : (a % 256) &&& 2 = 0 :=
  low_bits_of_aligned _ (Nat.mod_lt _ (by decide)) (by omega)

theorem isObj_aligned {ctx : qn_Context} {a : Nat} (hL : Layout ctx) (ha : isObj ctx a) :
    a % 4 = 0 := by
  obtain ⟨h1, h2, _⟩ := hL
  rcases ha with h | ⟨h3, _, h5⟩
  · subst h; omega
  · simp only [OBJSIZE] at h5
    omega

theorem qn_car_consed {c0 : qn_Context} {a : Nat} (b : Nat) (hL : Layout c0)
    (hf : isCell c0 c0.freelist) (ha : a % 4 = 0) :
    qn_car (allocated c0 ⟨a, b⟩) c0.freelist = .ok a := by
  have h0 := locate_cell hL hf
  have hne : (c0.freelist == c0.nil_addr) = false := by
    simpa using isCell_ne_nil hL hf
  have hb := tag_bit_of_aligned ha
  simp [qn_car, isnil, allocated, hne, checktype, type, tag, loadByte, locate, h0, car, loadWord,
    qn_Object.byte, byteAt_zero, hb, bind, Except.bind, pure, Except.pure, QN_TPAIR]

theorem qn_cdr_consed {c0 : qn_Context} {a : Nat} (b : Nat) (hL : Layout c0)
    (hf : isCell c0 c0.freelist) (ha : a % 4 = 0) :
    qn_cdr (allocated c0 ⟨a, b⟩) c0.freelist = .ok b := by
  have h0 := locate_cell hL hf
  have h8 := locate_cell8 hL hf
  have hne : (c0.freelist == c0.nil_addr) = false := by
    simpa using isCell_ne_nil hL hf
  have hb := tag_bit_of_aligned ha
  simp [qn_cdr, isnil, allocated, hne, checktype, type, tag, loadByte, locate, h0, h8, cdr, loadWord,
    qn_Object.byte, byteAt_zero, hb, bind, Except.bind, pure, Except.pure, QN_TPAIR]


theorem qn_number_ok (fuel : Nat) {ctx : qn_Context} (value : Nat) (hL : Layout ctx)
    (hf : isCell ctx ctx.freelist) (hroom : ctx.gcstack_idx < GCSTACKSIZE) :
    qn_number fuel ctx value = .ok (ctx.freelist, allocated ctx
      { car := setByte (ctx.arena ((ctx.freelist - ctx.objects) / 16)).car 0 (QN_TNUMBER <<< 2 ||| 1)
        cdr := (ctx.arena ((ctx.freelist - ctx.objects) / 16)).cdr
          - (ctx.arena ((ctx.freelist - ctx.objects) / 16)).cdr % 2 ^ 32 + value % 2 ^ 32 }) := by
  have h0 := locate_cell hL hf
  have h8 := locate_cell8 hL hf
  simp only [qn_number, object_ok fuel hL hf hroom, bind, Except.bind, settype, storeByte,
    storeFloat, loadWord, storeWord, locate, h0, pure, Except.pure]
  simp [h8, allocated, qn_Object.withByte]
  funext j
  split <;> simp_all

theorem qn_function_ok (fuel : Nat) {ctx : qn_Context} (fn : Nat) (hL : Layout ctx)
    (hf : isCell ctx ctx.freelist) (hroom : ctx.gcstack_idx < GCSTACKSIZE) :
    qn_function fuel ctx fn = .ok (ctx.freelist, allocated ctx
      { car := setByte (ctx.arena ((ctx.freelist - ctx.objects) / 16)).car 0 (QN_TFUNC <<< 2 ||| 1)
        cdr := fn }) := by
  have h0 := locate_cell hL hf
  have h8 := locate_cell8 hL hf
  simp only [qn_function, object_ok fuel hL hf hroom, bind, Except.bind, settype, storeByte,
    storeWord, locate, h0, pure, Except.pure]
  simp [h8, allocated, qn_Object.withByte]
  funext j
  split <;> simp_all

theorem qn_ptr_ok (fuel : Nat) {ctx : qn_Context} (ptr : Nat) (hL : Layout ctx)
    (hf : isCell ctx ctx.freelist) (hroom : ctx.gcstack_idx < GCSTACKSIZE) :
    qn_ptr fuel ctx ptr = .ok (ctx.freelist, allocated ctx
      { car := setByte (ctx.arena ((ctx.freelist - ctx.objects) / 16)).car 0 (QN_TPTR <<< 2 ||| 1)
        cdr := ptr }) := by
  have h0 := locate_cell hL hf
  have h8 := locate_cell8 hL hf
  simp only [qn_ptr, object_ok fuel hL hf hroom, bind, Except.bind, settype, storeByte,
    storeWord, locate, h0, pure, Except.pure]
  simp [h8, allocated, qn_Object.withByte]
  funext j
  split <;> simp_all

theorem cellIndex_ne {c : qn_Context} {x y : Nat} (hx : isCell c x) (hy : isCell c y)
    (hne : x ≠ y) : (x - c.objects) / 16 ≠ (y - c.objects) / 16 := by
  obtain ⟨h1, _, h3⟩ := hx
  obtain ⟨h4, _, h6⟩ := hy
  simp only [OBJSIZE] at h3 h6
  omega

/-- A list segment only depends on the cells it visits. -/
theorem lseg_frame {c c2 : qn_Context} (hobj : c2.objects = c.objects)
    (hcnt : c2.objects_count = c.objects_count) :
    ∀ (l : List Nat) (p q : Nat),
      (∀ x ∈ l, c2.arena ((x - c.objects) / 16) = c.arena ((x - c.objects) / 16)) →
      lseg c p l q → lseg c2 p l q
  | [], _, _, _, h => h
  | x :: xs, p, q, hx, h => by
    obtain ⟨h1, h2, h3⟩ := h
    refine ⟨h1, ?_, ?_⟩
    · unfold isCell at *
      rw [hobj, hcnt]
      exact h2
    · rw [hobj, hx x (List.mem_cons_self _ _)]
      exact lseg_frame hobj hcnt xs _ q (fun y hy => hx y (List.mem_cons_of_mem _ hy)) h3

theorem lseg_isCell {c : qn_Context} : ∀ {l : List Nat} {p q : Nat},
    lseg c p l q → ∀ x ∈ l, isCell c x
  | [], _, _, _, _, hx => by simp at hx
  | y :: ys, p, q, h, x, hx => by
    obtain ⟨_, h2, h3⟩ := h
    rcases List.mem_cons.mp hx with rfl | hx
    · exact h2
    · exact lseg_isCell h3 x hx

/-- Allocation from a free list `o :: rest` of distinct cells leaves the free
list `rest`. -/
theorem lseg_allocated {c0 : qn_Context} {o q : Nat} {rest : List Nat} (cell : qn_Object)
    (hfree : lseg c0 c0.freelist (o :: rest) q) (hnd : (o :: rest).Nodup) :
    o = c0.freelist ∧ lseg (allocated c0 cell) (allocated c0 cell).freelist rest q := by
  obtain ⟨h1, h2, h3⟩ := hfree
  refine ⟨h1.symm, ?_⟩
  have hcells := lseg_isCell h3
  rw [← h1] at h3
  refine @lseg_frame c0 (allocated c0 cell) rfl rfl rest _ q ?_ h3
  intro x hx
  have hne : x ≠ c0.freelist := by
    rintro rfl
    rw [h1] at hx
    exact (List.nodup_cons.mp hnd).1 hx
  have := cellIndex_ne (hcells x hx) (h1 ▸ h2) hne
  simp [allocated, this]

theorem plist_frame {c c2 : qn_Context} (hobj : c2.objects = c.objects)
    (hcnt : c2.objects_count = c.objects_count) (hnil : c2.nil_addr = c.nil_addr) :
    ∀ (nodes elems : List Nat) (p : Nat),
      (∀ x ∈ nodes, c2.arena ((x - c.objects) / 16) = c.arena ((x - c.objects) / 16)) →
      plist c p nodes elems → plist c2 p nodes elems
  | [], [], _, _, h => by
    simp only [plist] at h ⊢
    rw [hnil]; exact h
  | [], _ :: _, _, _, h => by simp [plist] at h
  | _ :: _, [], _, _, h => by simp [plist] at h
  | x :: xs, e :: es, p, hx, h => by
    simp only [plist] at h ⊢
    obtain ⟨h1, h2, h3, h4⟩ := h
    have hxx := hx x (List.mem_cons_self _ _)
    refine ⟨h1, ?_, ?_, ?_⟩
    · unfold isCell at *
      rw [hobj, hcnt]
      exact h2
    · rw [hobj, hxx]; exact h3
    · rw [hobj, hxx]
      exact plist_frame hobj hcnt hnil xs es _ (fun y hy => hx y (List.mem_cons_of_mem _ hy)) h4

theorem plist_isCell {c : qn_Context} : ∀ {nodes elems : List Nat} {p : Nat},
    plist c p nodes elems → ∀ x ∈ nodes, isCell c x
  | [], _, _, _, _, hx => by simp at hx
  | _ :: _, [], _, h, _, _ => by simp [plist] at h
  | y :: ys, e :: es, p, h, x, hx => by
    simp only [plist] at h
    obtain ⟨_, h2, _, h4⟩ := h
    rcases List.mem_cons.mp hx with rfl | hx
    · exact h2
    · exact plist_isCell h4 x hx

/-- The loop of `qn_list`, run with `n` free cells available, prepends the
first `n` elements of `objs` to the list it was given. -/
theorem qn_list_loop_spec (fuel : Nat) (objs : List Nat) (q : Nat) :
    ∀ (n : Nat) (ctx : qn_Context) (res : Nat) (cells nodes acc : List Nat),
      Layout ctx → n ≤ objs.length → lseg ctx ctx.freelist cells q → cells.length = n →
      cells.Nodup → (∀ x ∈ cells, x ∉ nodes) → plist ctx res nodes acc →
      ctx.gcstack_idx + n ≤ GCSTACKSIZE →
      ∃ r c, qn_list_loop fuel objs n ctx res = .ok (r, c) ∧ SameFrame
          { ctx with gcstack := c.gcstack, gcstack_idx := c.gcstack_idx } c ∧
        plist c r (cells.reverse ++ nodes) (objs.take n ++ acc)
  | 0, ctx, res, cells, nodes, acc, _, _, _, hlen, _, _, hp, _ => by
    have : cells = [] := List.length_eq_zero.mp hlen
    subst this
    exact ⟨res, ctx, rfl, ⟨rfl, rfl, rfl, rfl, rfl, rfl, rfl⟩, by simpa using hp⟩
  | n + 1, ctx, res, cells, nodes, acc, hL, hn, hfree, hlen, hnd, hdisj, hp, hroom => by
    obtain ⟨o, rest, rfl⟩ : ∃ o rest, cells = o :: rest := by
      cases cells with
      | nil => simp at hlen
      | cons o rest => exact ⟨o, rest, rfl⟩
    have hlt : n < objs.length := by omega
    have hget : objs[n]? = some objs[n] := List.getElem?_eq_getElem hlt
    have hf : isCell ctx ctx.freelist := hfree.1 ▸ hfree.2.1
    have hroom1 : ctx.gcstack_idx < GCSTACKSIZE := by omega
    have hal := lseg_allocated (⟨objs[n], res⟩ : qn_Object) hfree hnd
    have ho : o = ctx.freelist := hal.1
    have hcons := qn_cons_ok fuel objs[n] res hL hf hroom1
    have hnd' := List.nodup_cons.mp hnd
    have hnew : plist (allocated ctx ⟨objs[n], res⟩) o (o :: nodes) (objs[n] :: acc) := by
      simp only [plist]
      refine ⟨trivial, ?_, ?_, ?_⟩
      · rw [ho]; exact hf
      · simp [allocated, ho]
      · have hres : (((allocated ctx ⟨objs[n], res⟩).arena
            ((o - (allocated ctx ⟨objs[n], res⟩).objects) / 16)).cdr) = res := by
          simp [allocated, ho]
        rw [hres]
        refine @plist_frame ctx (allocated ctx ⟨objs[n], res⟩) rfl rfl rfl nodes acc res ?_ hp
        intro x hx
        have hne : x ≠ ctx.freelist := by
          rintro rfl
          exact hdisj o (List.mem_cons_self _ _) (ho ▸ hx)
        have := cellIndex_ne (plist_isCell hp x hx) hf hne
        simp [allocated, this]
    obtain ⟨r, c, hr, hfr, hpl⟩ := qn_list_loop_spec fuel objs q n
      (allocated ctx ⟨objs[n], res⟩) o rest (o :: nodes) (objs[n] :: acc) hL (by omega) hal.2
      (by simpa using hlen) hnd'.2
      (by
        intro x hx hmem
        rcases List.mem_cons.mp hmem with rfl | hmem
        · exact hnd'.1 hx
        · exact hdisj x (List.mem_cons_of_mem _ hx) hmem)
      hnew
      (by simp only [allocated]; omega)
    refine ⟨r, c, ?_, ?_, ?_⟩
    · simp only [qn_list_loop, hget, hcons, bind, Except.bind]
      rw [ho] at hr; exact hr
    · exact ⟨hfr.handlers, rfl, rfl, hfr.objects, hfr.objects_count, hfr.symlist, hfr.nil_addr⟩
    · have e1 : (o :: rest).reverse ++ nodes = rest.reverse ++ o :: nodes := by simp
      have e2 : objs.take (n + 1) ++ acc = objs.take n ++ objs[n] :: acc := by
        rw [List.take_succ, hget]
        simp only [Option.toList, List.append_assoc, List.singleton_append]
      rw [e1, e2]; exact hpl

theorem pair_cell_read {c : qn_Context} {x : Nat} (hL : Layout c) (hx : isCell c x)
    (hal : (c.arena ((x - c.objects) / 16)).car % 4 = 0) :
    x ≠ c.nil_addr ∧ qn_type c x = .ok QN_TPAIR ∧
    qn_car c x = .ok (c.arena ((x - c.objects) / 16)).car ∧
    qn_cdr c x = .ok (c.arena ((x - c.objects) / 16)).cdr := by
  have h0 := locate_cell hL hx
  have h8 := locate_cell8 hL hx
  have hne := isCell_ne_nil hL hx
  have hne2 : (x == c.nil_addr) = false := by simpa using hne
  have hb := tag_bit_of_aligned hal
  refine ⟨hne, ?_, ?_, ?_⟩
  · simp [qn_type, type, tag, loadByte, locate, h0, qn_Object.byte, byteAt_zero, hb, bind,
      Except.bind, pure, Except.pure]
  · simp [qn_car, isnil, hne2, checktype, type, tag, loadByte, locate, h0, car, loadWord,
      qn_Object.byte, byteAt_zero, hb, bind, Except.bind, pure, Except.pure, QN_TPAIR]
  · simp [qn_cdr, isnil, hne2, checktype, type, tag, loadByte, locate, h0, h8, cdr, loadWord,
      qn_Object.byte, byteAt_zero, hb, bind, Except.bind, pure, Except.pure, QN_TPAIR]

/-- Reading a chain of pairs with the accessors `qn_cdr`, `qn_car`, `qn_type`. -/
theorem plist_read {c : qn_Context} (hL : Layout c) :
    ∀ (nodes elems : List Nat) (p : Nat), plist c p nodes elems → (∀ e ∈ elems, e % 4 = 0) →
      (∀ i e, elems[i]? = some e →
        ∃ node, nth_cdr c i p = .ok node ∧ node ≠ c.nil_addr ∧
          qn_type c node = .ok QN_TPAIR ∧ qn_car c node = .ok e) ∧
      nth_cdr c elems.length p = .ok c.nil_addr
  | [], [], p, h, _ => by
    simp only [plist] at h
    subst h
    exact ⟨fun i e hi => by simp at hi, rfl⟩
  | [], _ :: _, _, h, _ => by simp [plist] at h
  | _ :: _, [], _, h, _ => by simp [plist] at h
  | x :: xs, e :: es, p, h, hal => by
    simp only [plist] at h
    obtain ⟨h1, h2, h3, h4⟩ := h
    subst h1
    have hr := pair_cell_read hL h2 (by rw [h3]; exact hal e (List.mem_cons_self _ _))
    have ih := plist_read hL xs es _ h4 (fun y hy => hal y (List.mem_cons_of_mem _ hy))
    constructor
    · intro i y hi
      cases i with
      | zero =>
        simp only [List.getElem?_cons_zero, Option.some.injEq] at hi
        subst hi
        exact ⟨p, rfl, hr.1, hr.2.1, by rw [hr.2.2.1, h3]⟩
      | succ i =>
        simp only [List.getElem?_cons_succ] at hi
        obtain ⟨node, hn1, hn2⟩ := ih.1 i y hi
        exact ⟨node, by simp only [nth_cdr, hr.2.2.2, bind, Except.bind]; exact hn1, hn2⟩
    · simp only [List.length_cons, nth_cdr, hr.2.2.2, bind, Except.bind]
      exact ih.2
/-! ## Tag bytes under marking and sweeping -/

theorem setByte_zero_mod (w v : Nat) : setByte w 0 v % 256 = v % 256 := by
  unfold setByte byteAt
  simp only [pow_zero, Nat.div_one, mul_one]
  omega

theorem setByte_succ_mod (w k v : Nat) : setByte w (k + 1) v % 256 = w % 256 := by
  unfold setByte byteAt
  have hle : w / 256 ^ (k + 1) % 256 * 256 ^ (k + 1) ≤ w :=
    le_trans (Nat.mul_le_mul_right _ (Nat.mod_le _ _)) (Nat.div_mul_le_self _ _)
  have e : ∀ x : Nat, x * 256 ^ (k + 1) = 256 * (x * 256 ^ k) := by
    intro x; rw [pow_succ]; ring
  rw [e, e] at *
  rw [Nat.add_mul_mod_self_left, Nat.sub_mul_mod hle]

theorem withByte_car_mod (a : qn_Object) (off v : Nat) :
    (a.withByte off v).car % 256 = if off = 0 then v % 256 else a.car % 256 := by
  unfold qn_Object.withByte
  by_cases h8 : off < 8
  · simp only [h8, if_true]
    cases off with
    | zero => simp [setByte_zero_mod]
    | succ k => simp [setByte_succ_mod]
  · have : off ≠ 0 := by omega
    simp [h8, this]

set_option maxRecDepth 100000 in
theorem or_mark_lt : ∀ x : Nat, x < 256 → (x ||| 2) < 256 ∧ (x ||| 2) ||| 2 = x ||| 2 ∧
    (x ||| 2) >>> 2 = x >>> 2 ∧ (x ||| 2) &&& 2 ≠ 0 ∧ (x &&& 0xFD) &&& 2 = 0 := by
  decide

theorem marked_refl (a : qn_Object) : Marked a a := Or.inl rfl

theorem marked_trans {a b c : qn_Object} (h1 : Marked a b) (h2 : Marked b c) : Marked a c := by
  unfold Marked at *
  have hx := (or_mark_lt (a.car % 256) (Nat.mod_lt _ (by decide))).2.1
  simp only [GCMARKBIT] at *
  rcases h1 with h1 | h1 <;> rcases h2 with h2 | h2
  · left; omega
  · right; rw [h2, h1]
  · right; omega
  · right; rw [h2, h1, hx]

theorem tagsMarked_refl (c : qn_Context) : TagsMarked c c :=
  ⟨marked_refl _, fun _ => marked_refl _⟩

theorem tagsMarked_trans {c1 c2 c3 : qn_Context} (h1 : TagsMarked c1 c2)
    (h2 : TagsMarked c2 c3) : TagsMarked c1 c3 :=
  ⟨marked_trans h1.1 h2.1, fun j => marked_trans (h1.2 j) (h2.2 j)⟩

/-- Setting the mark bit in the byte at any offset of a cell. -/
theorem marked_withByte (a : qn_Object) (off : Nat) :
    Marked a (a.withByte off (a.byte off ||| GCMARKBIT)) := by
  unfold Marked
  rw [withByte_car_mod]
  by_cases h0 : off = 0
  · subst h0
    right
    have hb : a.byte 0 = a.car % 256 := by simp [qn_Object.byte, byteAt]
    have := (or_mark_lt (a.car % 256) (Nat.mod_lt _ (by decide))).1
    simp only [if_true, hb, GCMARKBIT]
    exact Nat.mod_eq_of_lt this
  · left
    simp [h0]


theorem sat_loadByte_val (c : qn_Context) (p : Nat) :
    Sat (fun b => loadByte c p = .ok b) (loadByte c p) := by
  cases h : loadByte c p with
  | ok b => rfl
  | error e =>
    have := sat_loadByte c p
    rw [h] at this
    cases e <;> simp_all [Sat]

theorem sat_loadWord_val (c : qn_Context) (p : Nat) :
    Sat (fun b => loadWord c p = .ok b) (loadWord c p) := by
  cases h : loadWord c p with
  | ok b => rfl
  | error e =>
    have := sat_loadWord c p
    rw [h] at this
    cases e <;> simp_all [Sat]

/-- The store `tag(o) |= GCMARKBIT` of `qn_mark`. -/
theorem sat_mark_store {c : qn_Context} {o tg : Nat} (h : loadByte c o = .ok tg) :
    Sat (fun c1 => TagsMarked c c1) (storeByte c o (tg ||| GCMARKBIT)) := by
  unfold loadByte at h
  unfold storeByte
  split
  · rename_i off hl
    simp only [hl, Except.ok.injEq] at h
    subst h
    exact ⟨marked_withByte _ _, fun _ => marked_refl _⟩
  · rename_i i off hl
    simp only [hl, Except.ok.injEq] at h
    subst h
    refine ⟨marked_refl _, fun j => ?_⟩
    by_cases hj : j = i
    · subst hj
      simp only [if_true]
      exact marked_withByte _ _
    · simp only [hj, if_false]
      exact marked_refl _
  · simp [Sat]

theorem sat_qn_mark_tags : ∀ (fuel : Nat) (c : qn_Context) (o : Nat),
    Sat (fun c2 => TagsMarked c c2) (qn_mark fuel c o)
  | 0, c, o => by simp [qn_mark, Sat]
  | fuel + 1, c, o => by
    simp only [qn_mark]
    refine Sat.bind (sat_type c o) (fun k _ => ?_)
    split
    · exact tagsMarked_refl c
    · refine Sat.bind (sat_loadWord c _) (fun d _ => ?_)
      refine Sat.bind (sat_loadByte_val c _) (fun tg htg => ?_)
      refine Sat.bind (sat_mark_store htg) (fun c1 h1 => ?_)
      refine Sat.bind (sat_type c1 o) (fun k1 _ => ?_)
      split
      · refine Sat.bind (sat_qn_mark_tags fuel c1 d) (fun c2 h2 => ?_)
        refine Sat.bind (sat_loadWord c2 _) (fun d2 _ => ?_)
        exact (sat_qn_mark_tags fuel c2 d2).mono
          (fun c3 h3 => tagsMarked_trans h1 (tagsMarked_trans h2 h3))
      · split
        · refine Sat.bind (sat_loadWord c1 _) (fun d2 _ => ?_)
          exact (sat_qn_mark_tags fuel c1 d2).mono (fun c3 h3 => tagsMarked_trans h1 h3)
        · split
          · split
            · exact h1
            · exact h1
          · exact h1

theorem sat_gc_markroots_tags (fuel : Nat) : ∀ (n i : Nat) (c : qn_Context),
    Sat (fun c2 => TagsMarked c c2) (gc_markroots fuel n i c)
  | 0, i, c => tagsMarked_refl c
  | n + 1, i, c => by
    simp only [gc_markroots]
    refine Sat.bind (sat_qn_mark_tags fuel c _) (fun c1 h1 => ?_)
    exact (sat_gc_markroots_tags fuel n (i + 1) c1).mono (fun c2 h2 => tagsMarked_trans h1 h2)

theorem Sat.and {α : Type} {x : Except Err α} {P Q : α → Prop} (hp : Sat P x) (hq : Sat Q x) :
    Sat (fun a => P a ∧ Q a) x := by
  cases x with
  | ok a => exact ⟨hp, hq⟩
  | error e => cases e <;> simp_all [Sat]


theorem locate_cellAddr {c : qn_Context} {i : Nat} (hL : Layout c) (hi : i < c.objects_count) :
    locateAt c.nil_addr c.objects c.objects_count (c.objects + OBJSIZE * i)
      = some (.cell i 0) ∧
    locateAt c.nil_addr c.objects c.objects_count (c.objects + OBJSIZE * i + 8)
      = some (.cell i 8) := by
  have hc := isCell_cellAddr c hi
  have e : (c.objects + OBJSIZE * i - c.objects) / 16 = i := by
    simp only [OBJSIZE]; omega
  have h0 := locate_cell hL hc
  have h8 := locate_cell8 hL hc
  rw [e] at h0 h8
  exact ⟨h0, h8⟩

set_option maxRecDepth 100000 in
theorem clear_mark_lt : ∀ x : Nat, x < 256 → ((x &&& 0xFD) % 256) &&& 2 = 0 := by decide

/-- The reclaiming branch of the sweep, on a context that locates `o` at cell `i`. -/
theorem reclaim_branch {c : qn_Context} {o i : Nat}
    (h0 : locateAt c.nil_addr c.objects c.objects_count o = some (.cell i 0))
    (h8 : locateAt c.nil_addr c.objects c.objects_count (o + 8) = some (.cell i 8)) :
    (settype c o QN_TFREE >>= fun c1 => storeWord c1 (o + 8) c1.freelist >>= fun c2 =>
      (pure { c2 with freelist := o } : Except Err qn_Context)) =
    .ok { c with
      freelist := o
      arena := fun j => if j = i then
          { car := setByte (c.arena i).car 0 (QN_TFREE <<< 2 ||| 1), cdr := c.freelist }
        else c.arena j } := by
  simp only [settype, storeByte, locate, h0, bind, Except.bind, storeWord, pure, Except.pure]
  simp [h8, qn_Object.withByte]
  funext j
  split <;> simp_all

theorem sat_type_val (c : qn_Context) (p : Nat) :
    Sat (fun k => type c p = .ok k) (type c p) := by
  cases h : type c p with
  | ok b => rfl
  | error e =>
    have := sat_type c p
    rw [h] at this
    cases e <;> simp_all [Sat]

theorem sat_gc_sweepcell_tags {c : qn_Context} {i : Nat} (hL : Layout c)
    (hi : i < c.objects_count) : Sat (fun c2 => SweptCell c c2 i) (gc_sweepcell c i) := by
  obtain ⟨h0, h8⟩ := locate_cellAddr hL hi
  have htag : tag c (c.objects + OBJSIZE * i) = .ok ((c.arena i).car % 256) := by
    simp [tag, loadByte, locate, h0, qn_Object.byte, byteAt]
  obtain ⟨k, hk, hkdef⟩ : ∃ k, type c (c.objects + OBJSIZE * i) = .ok k ∧
      k = if (c.arena i).car % 256 &&& 0x2 ≠ 0 then ((c.arena i).car % 256) >>> 2
          else QN_TPAIR := by
    refine ⟨_, ?_, rfl⟩
    simp only [type, htag, bind, Except.bind, pure, Except.pure]
  simp only [gc_sweepcell, hk, bind, Except.bind]
  by_cases hfree : k = QN_TFREE
  · rw [if_pos hfree]
    refine ⟨rfl, fun _ _ => rfl, Or.inr ⟨rfl, ?_⟩⟩
    by_cases hb : (c.arena i).car % 256 &&& 0x2 ≠ 0
    · rw [if_pos hb] at hkdef
      exact ⟨hkdef ▸ hfree, hb⟩
    · rw [if_neg hb] at hkdef
      rw [hkdef] at hfree
      exact absurd hfree (by decide)
  · rw [if_neg hfree]
    refine Sat.bind (sat_loadWord c _) (fun a _ => ?_)
    refine Sat.bind (sat_loadByte c _) (fun tg _ => ?_)
    by_cases hrec : (tg ^^^ 0xFF) &&& GCMARKBIT ≠ 0
    · rw [if_pos hrec]
      have hcar : ∀ w : Nat, setByte w 0 (QN_TFREE <<< 2 ||| 1) % 256 &&& GCMARKBIT = 0 := by
        intro w
        rw [setByte_zero_mod]
        decide
      by_cases hp : k = QN_TPTR ∧ c.handlers.gc = true
      · rw [if_pos hp]
        have hr := @reclaim_branch
          { c with hostlog := c.hostlog ++ [HostCall.gc (c.objects + OBJSIZE * i)] }
          (c.objects + OBJSIZE * i) i h0 h8
        simp only [bind, Except.bind] at hr
        rw [hr]
        exact ⟨rfl, fun j hj => by simp only [if_neg hj], Or.inl (by simp only [if_true]; exact hcar _)⟩
      · rw [if_neg hp]
        have hr := @reclaim_branch c (c.objects + OBJSIZE * i) i h0 h8
        simp only [bind, Except.bind] at hr
        rw [hr]
        exact ⟨rfl, fun j hj => by simp only [if_neg hj], Or.inl (by simp only [if_true]; exact hcar _)⟩
    · rw [if_neg hrec]
      simp only [htag, storeByte, locate, h0]
      refine ⟨rfl, fun j hj => by simp only [if_neg hj], Or.inl ?_⟩
      simp only [if_true, withByte_car_mod, GCMARKBIT]
      exact clear_mark_lt _ (Nat.mod_lt _ (by decide))

theorem sat_gc_sweep_tags : ∀ (n i : Nat) (c : qn_Context), Layout c →
    i + n ≤ c.objects_count → Sat (fun c2 => SweptRange c c2 i n) (gc_sweep n i c)
  | 0, i, c, _, _ => ⟨rfl, fun _ _ => rfl, fun j h1 h2 => by omega⟩
  | n + 1, i, c, hL, hn => by
    simp only [gc_sweep]
    refine Sat.bind (Sat.and (sat_gc_sweepcell c i) (sat_gc_sweepcell_tags hL (by omega)))
      (fun c1 h1 => ?_)
    have hL1 : Layout c1 := hL.frame h1.1.1
    have hn1 : i + 1 + n ≤ c1.objects_count := by
      rw [h1.1.1.objects_count]; omega
    refine (sat_gc_sweep_tags n (i + 1) c1 hL1 hn1).mono (fun c2 h2 => ?_)
    obtain ⟨s1, s2, s3⟩ := h1.2
    obtain ⟨r1, r2, r3⟩ := h2
    refine ⟨r1.trans s1, fun j hj => ?_, fun j hj1 hj2 => ?_⟩
    · rw [r2 j (by omega), s2 j (by omega)]
    · by_cases hji : j = i
      · subst hji
        rw [r2 j (by omega)]
        exact s3
      · have := r3 j (by omega) (by omega)
        rw [s2 j hji] at this
        exact this

theorem sat_garbagecollector_tags (fuel : Nat) (c : qn_Context) (hL : Layout c) :
    Sat (fun c2 => Collected c c2) (garbagecollector fuel c) := by
  simp only [garbagecollector]
  refine Sat.bind (Sat.and (sat_gc_markroots fuel _ 0 c) (sat_gc_markroots_tags fuel _ 0 c))
    (fun c1 h1 => ?_)
  refine Sat.bind (Sat.and (sat_qn_mark fuel c1 _) (sat_qn_mark_tags fuel c1 _)) (fun c2 h2 => ?_)
  have hfr : SameFrame c c2 := h1.1.1.trans h2.1.1
  have htm : TagsMarked c c2 := tagsMarked_trans h1.2 h2.2
  refine (sat_gc_sweep_tags c2.objects_count 0 c2 (hL.frame hfr) (by omega)).mono
    (fun c3 h3 => ?_)
  obtain ⟨r1, _, r3⟩ := h3
  refine ⟨by rw [r1]; exact htm.1, fun j hj => ?_⟩
  rcases r3 j (Nat.zero_le _) (by rw [hfr.objects_count]; omega) with h | ⟨he, hf, _⟩
  · exact Or.inl h
  · right
    rw [he]
    refine ⟨?_, hf⟩
    have hx := (or_mark_lt ((c.arena j).car % 256) (Nat.mod_lt _ (by decide))).2.2.1
    rcases htm.2 j with hm | hm
    · rw [← hm]; exact hf
    · rw [hm] at hf
      simp only [GCMARKBIT] at hf
      rw [hx] at hf
      exact hf

/-! ## Building strings from a free list -/

/-- C1 (code defect): in a context with four free cells and an empty root
stack, the object returned by each of `qn_number`, `qn_string`, `qn_symbol`,
`qn_function` and `qn_ptr` is reported by `qn_type` as `QN_TPAIR`, not as the
kind the constructor wrote with `settype`: `settype` sets bit `0x1` of the tag
and `type` tests bit `0x2`. -/
theorem qn_type_of_fresh_objects_is_pair :
    (∃ o c, qn_number 8 (fresh 4) float_one = .ok (o, c) ∧ qn_type c o = .ok QN_TPAIR) ∧
    (∃ o c, qn_string 8 (fresh 4) str_foo = .ok (o, c) ∧ qn_type c o = .ok QN_TPAIR) ∧
    (∃ o c, qn_symbol 8 (fresh 16) str_foo = .ok (o, c) ∧ qn_type c o = .ok QN_TPAIR) ∧
    (∃ o c, qn_function 8 (fresh 4) 0x400000 = .ok (o, c) ∧ qn_type c o = .ok QN_TPAIR) ∧
    (∃ o c, qn_ptr 8 (fresh 4) 0x7000 = .ok (o, c) ∧ qn_type c o = .ok QN_TPAIR) ∧
    QN_TPAIR ≠ QN_TNUMBER ∧ QN_TPAIR ≠ QN_TSTRING ∧ QN_TPAIR ≠ QN_TSYMBOL ∧
    QN_TPAIR ≠ QN_TFUNC ∧ QN_TPAIR ≠ QN_TPTR :=
  ⟨⟨_, _, rfl, rfl⟩, ⟨_, _, rfl, rfl⟩, ⟨_, _, rfl, rfl⟩, ⟨_, _, rfl, rfl⟩, ⟨_, _, rfl, rfl⟩,
    by decide, by decide, by decide, by decide, by decide⟩

/-- C2 (code defect): in a context with sixteen free cells and an empty symbol
list, the first `qn_symbol(ctx, "foo")` returns a symbol, and a second call
with `"foo"` does not return it, nor does a call with `"bar"` return: the
lookup loop passes `car(cdr(o))` of the last list node, which is `car(nil)`,
the address `0x19`, to `streq`, and the read of `strbuf(0x19)[0]` is outside
every object. -/
theorem qn_symbol_second_call_faults :
    ∃ o c, qn_symbol 8 (fresh 16) str_foo = .ok (o, c) ∧
      qn_symbol 8 c str_foo = .error .fault ∧ qn_symbol 8 c str_bar = .error .fault :=
  ⟨_, _, rfl, rfl, rfl⟩

/-- C3 (code defect): `qn_nextarg` on the nil singleton in its initial state
raises no error and returns `car(nil)` (the word `0x19`) with `*args` set to
`cdr(nil)` (the null pointer); on a freshly built number it raises no error
either and returns the number's tagged `car` word. -/
theorem qn_nextarg_nil_and_number_return :
    qn_nextarg (fresh 4) (fresh 4).nil_addr = .ok (25, 0) ∧
    (∃ o c, qn_number 8 (fresh 4) float_one = .ok (o, c) ∧
      qn_nextarg c o = .ok (13, float_one)) :=
  ⟨rfl, _, _, rfl, rfl⟩

/-- C4 (code defect): `qn_car` and `qn_cdr` on a freshly built number raise no
error: they return the number's `car` word (its tag byte `13`) and its `cdr`
word.  Once the same number carries the mark bit, `qn_car` does raise, with
the message `"expected nil, got prim"` (the table `type_names` is not in the
order of the kind enumeration). -/
theorem qn_car_of_number_returns :
    ∃ o c, qn_number 8 (fresh 4) float_one = .ok (o, c) ∧
      qn_car c o = .ok 13 ∧ qn_cdr c o = .ok float_one ∧
      ∃ c2, qn_mark 8 c o = .ok c2 ∧
        qn_car c2 o = .error (.fatal "expected nil, got prim") :=
  ⟨_, _, rfl, rfl, rfl, _, rfl, rfl⟩

/-! ## Pairs -/

/-- C5: for every context with aligned, disjoint `nil` and arena whose free list
head is `nil` or an arena cell, and every object `a` of that context: whenever
`qn_cons(ctx, a, b)` returns, `qn_car` of the result returns `a` and `qn_cdr`
of it returns `b`, neither raising; and `qn_car` and `qn_cdr` of the nil
singleton return the nil singleton. -/
theorem qn_car_cdr_of_cons (fuel : Nat) (ctx : qn_Context) (a b o : Nat) (c : qn_Context)
    (hL : Layout ctx) (hfl : isObj ctx ctx.freelist) (ha : isObj ctx a)
    (h : qn_cons fuel ctx a b = .ok (o, c)) :
    qn_car c o = .ok a ∧ qn_cdr c o = .ok b ∧
    ∀ c2 : qn_Context,
      qn_car c2 c2.nil_addr = .ok c2.nil_addr ∧ qn_cdr c2 c2.nil_addr = .ok c2.nil_addr := by
  obtain ⟨c0, hfr, hf0, _, ho, hc⟩ := qn_cons_result hL hfl h
  have hal := isObj_aligned hL ha
  subst ho hc
  refine ⟨qn_car_consed b (hL.frame hfr) hf0 hal, qn_cdr_consed b (hL.frame hfr) hf0 hal, ?_⟩
  intro c2
  constructor
  · simp [qn_car, isnil, pure, Except.pure]
  · simp [qn_cdr, isnil, pure, Except.pure]

theorem qn_car_cdr_of_cons_witness :
    Layout (fresh 4) ∧ isObj (fresh 4) (fresh 4).freelist ∧ isObj (fresh 4) 0x2000 ∧
    ∃ o c, qn_cons 0 (fresh 4) 0x2000 0x1000 = .ok (o, c) ∧
      qn_car c o = .ok 0x2000 ∧ qn_cdr c o = .ok 0x1000 ∧
      ∀ c2 : qn_Context,
        qn_car c2 c2.nil_addr = .ok c2.nil_addr ∧ qn_cdr c2 c2.nil_addr = .ok c2.nil_addr :=
  ⟨by decide, by decide, by decide, _, _, rfl,
    qn_car_cdr_of_cons 0 (fresh 4) 0x2000 0x1000 _ _ (by decide) (by decide) (by decide) rfl⟩

/-! ## Root stack -/

/-- C6: in a context whose root-stack depth does not exceed its capacity,
`qn_pushgc` raises the fatal error `"stack overflow"` exactly when the depth
is `GCSTACKSIZE` (256); at any other depth it returns, the depth reported by
`qn_savegc` is one more than before, the pushed object is the entry at the old
depth (the new top), and every entry below it is unchanged.  At any depth the
error is raised exactly when the depth is at least `GCSTACKSIZE`. -/
theorem qn_pushgc_overflow_iff (ctx : qn_Context) (o : Nat)
    (hcap : qn_savegc ctx ≤ GCSTACKSIZE) :
    (qn_pushgc ctx o = .error (.fatal "stack overflow") ↔ qn_savegc ctx = GCSTACKSIZE) ∧
    (qn_savegc ctx ≠ GCSTACKSIZE →
      ∃ c, qn_pushgc ctx o = .ok c ∧ qn_savegc c = qn_savegc ctx + 1 ∧
        c.gcstack (qn_savegc ctx) = o ∧
        ∀ i, i < qn_savegc ctx → c.gcstack i = ctx.gcstack i) ∧
    (∀ ctx2 : qn_Context,
      qn_pushgc ctx2 o = .error (.fatal "stack overflow") ↔ GCSTACKSIZE ≤ qn_savegc ctx2) := by
  have hgen : ∀ ctx2 : qn_Context,
      qn_pushgc ctx2 o = .error (.fatal "stack overflow") ↔ GCSTACKSIZE ≤ qn_savegc ctx2 := by
    intro ctx2
    unfold qn_pushgc qn_savegc
    by_cases h : ctx2.gcstack_idx ≥ GCSTACKSIZE
    · simp [h, qn_error]
    · simp [h, pure, Except.pure]
  refine ⟨?_, ?_, hgen⟩
  · rw [hgen ctx]
    omega
  · intro hne
    have h : ¬ ctx.gcstack_idx ≥ GCSTACKSIZE := by
      unfold qn_savegc at hcap hne
      omega
    refine ⟨_, by simp only [qn_pushgc, if_neg h]; rfl, ?_, ?_, ?_⟩
    · simp [qn_savegc]
    · simp [qn_savegc]
    · intro i hi
      have : i ≠ ctx.gcstack_idx := by
        unfold qn_savegc at hi
        omega
      simp [this]

theorem qn_pushgc_overflow_iff_witness :
    qn_savegc (fresh 4) ≤ GCSTACKSIZE ∧
    (qn_pushgc (fresh 4) 0x2000 = .error (.fatal "stack overflow") ↔
      qn_savegc (fresh 4) = GCSTACKSIZE) ∧
    (qn_savegc (fresh 4) ≠ GCSTACKSIZE →
      ∃ c, qn_pushgc (fresh 4) 0x2000 = .ok c ∧ qn_savegc c = qn_savegc (fresh 4) + 1 ∧
        c.gcstack (qn_savegc (fresh 4)) = 0x2000 ∧
        ∀ i, i < qn_savegc (fresh 4) → c.gcstack i = (fresh 4).gcstack i) ∧
    (∀ ctx2 : qn_Context,
      qn_pushgc ctx2 0x2000 = .error (.fatal "stack overflow") ↔
        GCSTACKSIZE ≤ qn_savegc ctx2) :=
  ⟨by decide, qn_pushgc_overflow_iff (fresh 4) 0x2000 (by decide)⟩

/-! ## Single-cell constructors -/

theorem popsHead_allocated {ctx : qn_Context} {o : Nat} {rest : List Nat} (cell : qn_Object)
    {r : Except Err (Nat × qn_Context)} (hr : r = .ok (ctx.freelist, allocated ctx cell))
    (hfree : lseg ctx ctx.freelist (o :: rest) ctx.nil_addr) (hnd : (o :: rest).Nodup) :
    PopsHead ctx rest r := by
  refine ⟨_, hr, (lseg_allocated cell hfree hnd).2, rfl, ?_, ?_⟩
  · simp [allocated, qn_savegc]
  · intro i hi
    have : i ≠ ctx.gcstack_idx := by
      unfold qn_savegc at hi
      omega
    simp [allocated, this]

/-- C7: in a context with aligned, disjoint `nil` and arena whose free list
consists of the distinct arena cells `o :: rest` and whose root-stack depth is
below `GCSTACKSIZE`, each of `qn_cons`, `qn_number`, `qn_function` and `qn_ptr`
returns `o`, the head of the free list; afterwards the free list consists of
`rest`, the root stack is exactly one entry deeper, its top entry is `o`, and
the entries below are unchanged. -/
theorem constructors_take_free_list_head (fuel : Nat) (ctx : qn_Context) (o : Nat)
    (rest : List Nat) (a b value fn ptr : Nat) (hL : Layout ctx)
    (hfree : lseg ctx ctx.freelist (o :: rest) ctx.nil_addr) (hnd : (o :: rest).Nodup)
    (hroom : qn_savegc ctx < GCSTACKSIZE) :
    o = ctx.freelist ∧
    PopsHead ctx rest (qn_cons fuel ctx a b) ∧
    PopsHead ctx rest (qn_number fuel ctx value) ∧
    PopsHead ctx rest (qn_function fuel ctx fn) ∧
    PopsHead ctx rest (qn_ptr fuel ctx ptr) := by
  have hf : isCell ctx ctx.freelist := hfree.1 ▸ hfree.2.1
  exact ⟨hfree.1.symm,
    popsHead_allocated _ (qn_cons_ok fuel a b hL hf hroom) hfree hnd,
    popsHead_allocated _ (qn_number_ok fuel value hL hf hroom) hfree hnd,
    popsHead_allocated _ (qn_function_ok fuel fn hL hf hroom) hfree hnd,
    popsHead_allocated _ (qn_ptr_ok fuel ptr hL hf hroom) hfree hnd⟩

theorem constructors_take_free_list_head_witness :
    Layout (fresh 4) ∧
    lseg (fresh 4) (fresh 4).freelist [0x2030, 0x2020, 0x2010, 0x2000] (fresh 4).nil_addr ∧
    [0x2030, 0x2020, 0x2010, 0x2000].Nodup ∧ qn_savegc (fresh 4) < GCSTACKSIZE ∧
    0x2030 = (fresh 4).freelist ∧
    PopsHead (fresh 4) [0x2020, 0x2010, 0x2000] (qn_cons 0 (fresh 4) 0x2000 0x1000) ∧
    PopsHead (fresh 4) [0x2020, 0x2010, 0x2000] (qn_number 0 (fresh 4) float_one) ∧
    PopsHead (fresh 4) [0x2020, 0x2010, 0x2000] (qn_function 0 (fresh 4) 0x400000) ∧
    PopsHead (fresh 4) [0x2020, 0x2010, 0x2000] (qn_ptr 0 (fresh 4) 0x7000) :=
  ⟨by decide, by decide, by decide, by decide,
    constructors_take_free_list_head 0 (fresh 4) 0x2030 [0x2020, 0x2010, 0x2000]
      0x2000 0x1000 float_one 0x400000 0x7000 (by decide) (by decide) (by decide) (by decide)⟩

/-! ## Out of memory -/

theorem object_not_oom_of_cell (fuel : Nat) {ctx : qn_Context} (hL : Layout ctx)
    (hf : isCell ctx ctx.freelist) : object fuel ctx ≠ .error (.fatal "OOM error") := by
  by_cases hroom : ctx.gcstack_idx < GCSTACKSIZE
  · rw [object_ok fuel hL hf hroom]; simp
  · rw [object_noroom fuel hL hf hroom]
    intro h
    simp at h

theorem sat_storeFloat (c : qn_Context) (p v : Nat) :
    Sat (fun _ => True) (storeFloat c p v) := by
  unfold storeFloat
  exact Sat.bind (sat_loadWord c p) (fun w _ => (sat_storeWord c p _).mono (fun _ _ => trivial))

/-- A constructor that first calls `object` and then only stores into the cell
raises a given fatal error exactly when `object` does. -/
theorem fatal_iff_of_object {fuel : Nat} {ctx : qn_Context} {m : String}
    {f : Nat × qn_Context → Except Err (Nat × qn_Context)}
    (hf : ∀ x, Sat (fun _ => True) (f x)) :
    (object fuel ctx >>= f) = .error (.fatal m) ↔ object fuel ctx = .error (.fatal m) := by
  cases h : object fuel ctx with
  | error e => simp [bind, Except.bind]
  | ok x =>
    simp only [bind, Except.bind]
    constructor
    · intro h2
      exact absurd h2 ((hf x).not_fatal m)
    · intro h2
      simp at h2

theorem constructors_oom_iff (fuel : Nat) (ctx : qn_Context) (a b value fn ptr : Nat) :
    (qn_cons fuel ctx a b = .error (.fatal "OOM error") ↔
      object fuel ctx = .error (.fatal "OOM error")) ∧
    (qn_number fuel ctx value = .error (.fatal "OOM error") ↔
      object fuel ctx = .error (.fatal "OOM error")) ∧
    (qn_function fuel ctx fn = .error (.fatal "OOM error") ↔
      object fuel ctx = .error (.fatal "OOM error")) ∧
    (qn_ptr fuel ctx ptr = .error (.fatal "OOM error") ↔
      object fuel ctx = .error (.fatal "OOM error")) := by
  refine ⟨?_, ?_, ?_, ?_⟩
  · unfold qn_cons
    refine fatal_iff_of_object (fun x => ?_)
    refine Sat.bind (sat_storeWord _ _ _) (fun c1 _ => ?_)
    exact Sat.bind (sat_storeWord _ _ _) (fun c2 _ => trivial)
  · unfold qn_number
    refine fatal_iff_of_object (fun x => ?_)
    refine Sat.bind (sat_storeByte _ _ _) (fun c1 _ => ?_)
    exact Sat.bind (sat_storeFloat _ _ _) (fun c2 _ => trivial)
  · unfold qn_function
    refine fatal_iff_of_object (fun x => ?_)
    refine Sat.bind (sat_storeByte _ _ _) (fun c1 _ => ?_)
    exact Sat.bind (sat_storeWord _ _ _) (fun c2 _ => trivial)
  · unfold qn_ptr
    refine fatal_iff_of_object (fun x => ?_)
    refine Sat.bind (sat_storeByte _ _ _) (fun c1 _ => ?_)
    exact Sat.bind (sat_storeWord _ _ _) (fun c2 _ => trivial)

/-- Allocation when the collector returns: in a context with aligned, disjoint
`nil` and arena whose free list head is `nil` or an arena cell, `object` raises
the fatal error `"OOM error"` exactly when the free list is empty on entry and
`garbagecollector` returns a context whose free list is still empty.  With
root-stack room, `object` returns the head of the free list when it is not
empty on entry, and the head of the free list the collector leaves when the
collector returns a non-empty one.  Each of `qn_cons`, `qn_number`,
`qn_function` and `qn_ptr` raises `"OOM error"` exactly when its call of
`object` does.  Nothing is said here of the runs in which the collector does
not return. -/
theorem object_oom_iff (fuel : Nat) (ctx : qn_Context) (hL : Layout ctx)
    (hfl : isObj ctx ctx.freelist) :
    (object fuel ctx = .error (.fatal "OOM error") ↔
      isnil ctx ctx.freelist = true ∧
        ∃ c0, garbagecollector fuel ctx = .ok c0 ∧ isnil c0 c0.freelist = true) ∧
    (qn_savegc ctx < GCSTACKSIZE →
      (isnil ctx ctx.freelist = false →
        isCell ctx ctx.freelist ∧ ∃ c, object fuel ctx = .ok (ctx.freelist, c)) ∧
      (isnil ctx ctx.freelist = true →
        ∀ c0, garbagecollector fuel ctx = .ok c0 → isnil c0 c0.freelist = false →
          isCell c0 c0.freelist ∧ ∃ c, object fuel ctx = .ok (c0.freelist, c))) ∧
    (∀ a b value fn ptr : Nat,
      (qn_cons fuel ctx a b = .error (.fatal "OOM error") ↔
        object fuel ctx = .error (.fatal "OOM error")) ∧
      (qn_number fuel ctx value = .error (.fatal "OOM error") ↔
        object fuel ctx = .error (.fatal "OOM error")) ∧
      (qn_function fuel ctx fn = .error (.fatal "OOM error") ↔
        object fuel ctx = .error (.fatal "OOM error")) ∧
      (qn_ptr fuel ctx ptr = .error (.fatal "OOM error") ↔
        object fuel ctx = .error (.fatal "OOM error"))) := by
  have hcell : isnil ctx ctx.freelist = false → isCell ctx ctx.freelist := by
    intro hn
    rcases hfl with h | h
    · simp [isnil, h] at hn
    · exact h
  refine ⟨⟨fun h => ?_, fun h => ?_⟩, fun hroom => ⟨fun hn => ?_, fun hn c0 hg h0 => ?_⟩,
    fun a b value fn ptr => constructors_oom_iff fuel ctx a b value fn ptr⟩
  · by_cases hn : isnil ctx ctx.freelist = true
    · refine ⟨hn, ?_⟩
      rw [object_gc fuel hn] at h
      cases hg : garbagecollector fuel ctx with
      | error e =>
        rw [hg] at h
        have h2 : e = Err.fatal "OOM error" := by
          simpa [bind, Except.bind] using h
        exact absurd (h2 ▸ hg) ((sat_garbagecollector fuel ctx).not_fatal _)
      | ok c0 =>
        refine ⟨c0, rfl, ?_⟩
        by_contra h0
        have h0 : isnil c0 c0.freelist = false := by simpa using h0
        have hfr := gc_freelist hg hn h0
        rw [hg] at h
        simp only [bind, Except.bind, h0] at h
        exact object_not_oom_of_cell fuel (hL.frame hfr.1) hfr.2 (by simpa using h)
    · exact absurd h (object_not_oom_of_cell fuel hL (hcell (by simpa using hn)))
  · obtain ⟨hn, c0, hg, h0⟩ := h
    rw [object_gc fuel hn, hg]
    simp [bind, Except.bind, h0]
  · exact ⟨hcell hn, _, object_ok fuel hL (hcell hn) hroom⟩
  · have hfr := gc_freelist hg hn h0
    refine ⟨hfr.2, ?_⟩
    rw [object_gc fuel hn, hg]
    simp only [bind, Except.bind, h0]
    have hroom0 : c0.gcstack_idx < GCSTACKSIZE := by
      rw [hfr.1.gcstack_idx]; exact hroom
    exact ⟨_, object_ok fuel (hL.frame hfr.1) hfr.2 hroom0⟩

theorem object_oom_iff_witness :
    Layout two_pairs ∧ isObj two_pairs two_pairs.freelist ∧
    isnil two_pairs two_pairs.freelist = true ∧
    (∃ c0, garbagecollector 8 two_pairs = .ok c0 ∧ isnil c0 c0.freelist = false ∧
      ∃ c, object 8 two_pairs = .ok (c0.freelist, c)) ∧
    (∃ c0, garbagecollector 8 (fresh 0) = .ok c0 ∧ isnil c0 c0.freelist = true ∧
      object 8 (fresh 0) = .error (.fatal "OOM error")) ∧
    ((object 8 two_pairs = .error (.fatal "OOM error") ↔
      isnil two_pairs two_pairs.freelist = true ∧
        ∃ c0, garbagecollector 8 two_pairs = .ok c0 ∧ isnil c0 c0.freelist = true) ∧
    (qn_savegc two_pairs < GCSTACKSIZE →
      (isnil two_pairs two_pairs.freelist = false →
        isCell two_pairs two_pairs.freelist ∧
          ∃ c, object 8 two_pairs = .ok (two_pairs.freelist, c)) ∧
      (isnil two_pairs two_pairs.freelist = true →
        ∀ c0, garbagecollector 8 two_pairs = .ok c0 → isnil c0 c0.freelist = false →
          isCell c0 c0.freelist ∧ ∃ c, object 8 two_pairs = .ok (c0.freelist, c))) ∧
    (∀ a b value fn ptr : Nat,
      (qn_cons 8 two_pairs a b = .error (.fatal "OOM error") ↔
        object 8 two_pairs = .error (.fatal "OOM error")) ∧
      (qn_number 8 two_pairs value = .error (.fatal "OOM error") ↔
        object 8 two_pairs = .error (.fatal "OOM error")) ∧
      (qn_function 8 two_pairs fn = .error (.fatal "OOM error") ↔
        object 8 two_pairs = .error (.fatal "OOM error")) ∧
      (qn_ptr 8 two_pairs ptr = .error (.fatal "OOM error") ↔
        object 8 two_pairs = .error (.fatal "OOM error")))) :=
  ⟨by decide, by decide, by decide, ⟨_, rfl, rfl, _, rfl⟩, ⟨_, rfl, rfl, rfl⟩,
    object_oom_iff 8 two_pairs (by decide) (by decide)⟩

/-- C8 (code defect): in `list_123` the root stack has room (6 of 256 entries)
and the free list is empty, so `object` runs `garbagecollector`.  The sweep
reads the tag of `car(o)` of the number cell `0x2030`, whose `car` word is its
tag (`0x0d`, `0x0f` once marked) and not an address, and faults: for every positive amount of fuel `object`, `qn_cons` and
`qn_number` end in a memory fault.  The allocation neither raises
`"OOM error"` nor returns a cell. -/
theorem object_faults_in_collector :
    qn_savegc list_123 = 6 ∧ 6 < GCSTACKSIZE ∧
    isnil list_123 list_123.freelist = true ∧
    tag list_123 0x2030 = .ok 0x0d ∧ (list_123.arena 3).car = 0x0d ∧
    (∀ n, garbagecollector (n + 1) list_123 = .error .fault) ∧
    (∀ n, object (n + 1) list_123 = .error .fault) ∧
    (∀ n, qn_cons (n + 1) list_123 list_123.nil_addr list_123.nil_addr = .error .fault) ∧
    (∀ n, qn_number (n + 1) list_123 float_one = .error .fault) ∧
    Err.fault ≠ Err.fatal "OOM error" :=
  ⟨rfl, by decide, rfl, rfl, rfl, fun _ => rfl, fun _ => rfl, fun _ => rfl, fun _ => rfl,
    by simp⟩
/-! ## Structural equality of strings -/

/-- C9 (code defect): two string objects built separately from the same bytes
`"foo"` compare unequal: `equal` returns `0`, because `type` reports both as
`QN_TPAIR` and the `QN_TSTRING` branch is not reached. -/
theorem equal_of_same_strings_is_zero :
    ∃ a c1 b c2, qn_string 8 (fresh 16) str_foo = .ok (a, c1) ∧
      qn_string 8 c1 str_foo = .ok (b, c2) ∧ a ≠ b ∧ equal 8 c2 a b = .ok 0 :=
  ⟨_, _, _, _, rfl, rfl, by decide, rfl⟩

/-! ## Lists from arrays -/

/-- C10: in a context with aligned, disjoint `nil` and arena, for an array
`objs` holding at least `n` objects of the context, whose free list starts with
`n` distinct arena cells and whose root stack has `n` free slots,
`qn_list(ctx, objs, n)` returns a list `r` such that for every `i < n` the
object reached after `i` `qn_cdr` steps is not `nil`, has kind `QN_TPAIR` and
its `qn_car` is `objs[i]`; after `n` `qn_cdr` steps the nil singleton is
reached; the head has kind `QN_TPAIR` when `n > 0`; and `r` is the nil
singleton when `n = 0`. -/
theorem qn_list_builds_proper_list (fuel : Nat) (ctx : qn_Context) (objs : List Nat)
    (n q : Nat) (cells : List Nat) (hL : Layout ctx) (hn : n ≤ objs.length)
    (hobjs : ∀ x ∈ objs, isObj ctx x) (hfree : lseg ctx ctx.freelist cells q)
    (hlen : cells.length = n) (hnd : cells.Nodup)
    (hroom : qn_savegc ctx + n ≤ GCSTACKSIZE) :
    ∃ r c, qn_list fuel ctx objs n = .ok (r, c) ∧
      (∀ i e, i < n → objs[i]? = some e →
        ∃ node, nth_cdr c i r = .ok node ∧ node ≠ c.nil_addr ∧
          qn_type c node = .ok QN_TPAIR ∧ qn_car c node = .ok e) ∧
      nth_cdr c n r = .ok c.nil_addr ∧
      (0 < n → qn_type c r = .ok QN_TPAIR) ∧
      (n = 0 → r = c.nil_addr) := by
  obtain ⟨r, c, hr, hfr, hpl⟩ := qn_list_loop_spec fuel objs q n ctx ctx.nil_addr cells [] []
    hL hn hfree hlen hnd (fun _ _ h => by simp at h) (by simp [plist]) hroom
  have hLc : Layout c :=
    @Layout.frame { ctx with gcstack := c.gcstack, gcstack_idx := c.gcstack_idx } c hL hfr
  simp only [List.append_nil] at hpl
  have hal : ∀ e ∈ objs.take n, e % 4 = 0 :=
    fun e he => isObj_aligned hL (hobjs e (List.mem_of_mem_take he))
  have hrd := plist_read hLc _ _ r hpl hal
  have hlen2 : (objs.take n).length = n := by simp [hn]
  have hnth : ∀ i e, i < n → objs[i]? = some e →
      ∃ node, nth_cdr c i r = .ok node ∧ node ≠ c.nil_addr ∧
        qn_type c node = .ok QN_TPAIR ∧ qn_car c node = .ok e := by
    intro i e hi he
    refine hrd.1 i e ?_
    rw [List.getElem?_take_of_lt hi]; exact he
  have hend : nth_cdr c n r = .ok c.nil_addr := by
    have := hrd.2
    rwa [hlen2] at this
  refine ⟨r, c, hr, hnth, hend, ?_, ?_⟩
  · intro hpos
    have hlt : 0 < objs.length := by omega
    obtain ⟨node, h1, _, h3, _⟩ := hnth 0 objs[0] hpos (List.getElem?_eq_getElem hlt)
    simp only [nth_cdr, Except.ok.injEq] at h1
    rw [h1]; exact h3
  · intro h0
    subst h0
    simpa [nth_cdr] using hend

theorem qn_list_builds_proper_list_witness :
    Layout three_numbers ∧ 3 ≤ [0x2070, 0x2060, 0x2050].length ∧
    (∀ x ∈ [0x2070, 0x2060, 0x2050], isObj three_numbers x) ∧
    lseg three_numbers three_numbers.freelist [0x2040, 0x2030, 0x2020] 0x2010 ∧
    [0x2040, 0x2030, 0x2020].length = 3 ∧ [0x2040, 0x2030, 0x2020].Nodup ∧
    qn_savegc three_numbers + 3 ≤ GCSTACKSIZE ∧
    ∃ r c, qn_list 0 three_numbers [0x2070, 0x2060, 0x2050] 3 = .ok (r, c) ∧
      (∀ i e, i < 3 → [0x2070, 0x2060, 0x2050][i]? = some e →
        ∃ node, nth_cdr c i r = .ok node ∧ node ≠ c.nil_addr ∧
          qn_type c node = .ok QN_TPAIR ∧ qn_car c node = .ok e) ∧
      nth_cdr c 3 r = .ok c.nil_addr ∧
      (0 < 3 → qn_type c r = .ok QN_TPAIR) ∧
      (3 = 0 → r = c.nil_addr) :=
  ⟨by decide, by decide, by decide, by decide, by decide, by decide, by decide,
    qn_list_builds_proper_list 0 three_numbers [0x2070, 0x2060, 0x2050] 3 0x2010
      [0x2040, 0x2030, 0x2020] (by decide) (by decide) (by decide) (by decide) (by decide)
      (by decide) (by decide)⟩

/-! ## The collector on concrete heaps -/

/-- C11 (code defect): in `rooted_pair` the pair `0x2000` is the entry of the
root stack when `garbagecollector` runs; the collection returns with that pair
as head of the free list and its `car` word changed from `0x1000` to `0x1005`.
In `list_123`, where the list `(1 2 3)` and its three numbers are rooted and
the free list is empty, the collection does not return: its sweep reads the
tag of `car(o)` of a cell whose `car` is not a pointer. -/
theorem rooted_pair_is_reclaimed :
    (rooted_pair.gcstack_idx = 1 ∧ rooted_pair.gcstack 0 = 0x2000 ∧
      isCell rooted_pair 0x2000 ∧ car rooted_pair 0x2000 = .ok 0x1000 ∧
      ∃ c, garbagecollector 8 rooted_pair = .ok c ∧ c.freelist = 0x2000 ∧
        car c 0x2000 = .ok 0x1005) ∧
    (list_123.gcstack_idx = 6 ∧ list_123.gcstack 5 = 0x2000 ∧
      isnil list_123 list_123.freelist = true ∧
      qn_car list_123 0x2000 = .ok 0x2050 ∧ number list_123 0x2050 = .ok float_one ∧
      garbagecollector 8 list_123 = .error .fault) :=
  ⟨⟨rfl, rfl, by decide, rfl, _, rfl, rfl, rfl⟩, ⟨rfl, rfl, rfl, rfl, rfl, rfl⟩⟩

/-- C12 (code defect): in `two_pairs` the root stack and the symbol list are
empty, so neither of the two arena cells is reachable, and the free list is
empty.  After `garbagecollector` the free list consists of the single cell
`0x2000`; the unreachable cell `0x2010` is not on it and keeps its contents;
and `qn_type` reports `QN_TPAIR`, not `QN_TFREE`, for the reclaimed cell. -/
theorem sweep_keeps_unreachable_cell :
    two_pairs.gcstack_idx = 0 ∧ two_pairs.symlist = two_pairs.nil_addr ∧
    two_pairs.objects_count = 2 ∧ isnil two_pairs two_pairs.freelist = true ∧
    ∃ c, garbagecollector 8 two_pairs = .ok c ∧
      lseg c c.freelist [0x2000] c.nil_addr ∧
      c.arena 1 = two_pairs.arena 1 ∧
      qn_type c 0x2000 = .ok QN_TPAIR ∧ QN_TPAIR ≠ QN_TFREE :=
  ⟨rfl, rfl, rfl, rfl, _, rfl, by decide, by decide, rfl, by decide⟩

/-- C13 (code defect): in `ptr_scene` a `gc` handler is registered and the
cell `0x2010` is a foreign pointer built by `qn_ptr` (tag `QN_TPTR << 2 | 1`,
`cdr` word `0x7000`), no longer rooted.  `garbagecollector` reclaims that cell
(it becomes the head of the free list, tagged free) and the handler is not
called: the host log is empty after the run. -/
theorem reclaimed_ptr_without_gc_call :
    ptr_scene.handlers.gc = true ∧ ptr_scene.gcstack_idx = 0 ∧
    tag ptr_scene 0x2010 = .ok (QN_TPTR <<< 2 ||| 1) ∧ cdr ptr_scene 0x2010 = .ok 0x7000 ∧
    ptr_scene.hostlog = [] ∧
    ∃ c, garbagecollector 8 ptr_scene = .ok c ∧ c.freelist = 0x2010 ∧
      tag c 0x2010 = .ok (QN_TFREE <<< 2 ||| 1) ∧ c.hostlog = [] :=
  ⟨rfl, rfl, rfl, rfl, rfl, _, rfl, rfl, rfl, rfl⟩

/-- C14 (code defect): with `a = qn_cons(ctx, nil, nil)` and
`p = qn_cons(ctx, a, nil)`, the call `qn_mark(ctx, p)` returns, `p` carries the
mark flag, and the object `a` referenced by the first slot of `p` does not:
its tag byte is still `0`. -/
theorem qn_mark_skips_first_slot :
    ∃ a c1 p c2 c3, qn_cons 0 (fresh 2) (fresh 2).nil_addr (fresh 2).nil_addr = .ok (a, c1) ∧
      qn_cons 0 c1 a c1.nil_addr = .ok (p, c2) ∧ a ≠ p ∧
      qn_mark 8 c2 p = .ok c3 ∧
      tag c3 p = .ok 0x12 ∧ 0x12 &&& GCMARKBIT ≠ 0 ∧
      tag c3 a = .ok 0 ∧ 0 &&& GCMARKBIT = 0 :=
  ⟨_, _, _, _, _, rfl, rfl, by decide, rfl, rfl, by decide, rfl, by decide⟩

/-! ## Marking a cyclic structure -/

/-- One step of `qn_mark` on an object that `type` does not see as marked and
that `type` reports as a pair once the mark bit is set. -/
theorem qn_mark_step_pair {fuel : Nat} {c c1 : qn_Context} {o k d tg : Nat}
    (h1 : type c o = .ok k) (h2 : k &&& GCMARKBIT = 0) (h3 : cdr c o = .ok d)
    (h4 : tag c o = .ok tg) (h5 : storeByte c o (tg ||| GCMARKBIT) = .ok c1)
    (h6 : type c1 o = .ok QN_TPAIR) :
    qn_mark (fuel + 1) c o =
      (qn_mark fuel c1 d >>= fun c2 => cdr c2 o >>= fun o2 => qn_mark fuel c2 o2) := by
  simp only [qn_mark, h1, h2, h3, h4, h5, h6, bind, Except.bind, ne_eq, not_true_eq_false,
    if_false, if_true]

theorem qn_mark_marked_self_loop : ∀ (fuel : Nat) (c : qn_Context),
    c.nil_addr = 0x1000 → c.objects = 0x2000 → c.objects_count = 1 →
    c.arena 0 = { car := 0x1002, cdr := 0x2000 } →
    qn_mark fuel c 0x2000 = .error .nofuel
  | 0, _, _, _, _, _ => rfl
  | fuel + 1, c, hn, ho, hc, ha => by
    have hloc : locateAt c.nil_addr c.objects c.objects_count 0x2000 = some (.cell 0 0) := by
      rw [hn, ho, hc]; rfl
    have hloc8 : locateAt c.nil_addr c.objects c.objects_count (0x2000 + 8)
        = some (.cell 0 8) := by
      rw [hn, ho, hc]; rfl
    have hw : ({ car := 0x1002, cdr := 0x2000 } : qn_Object).withByte 0 (2 ||| GCMARKBIT)
        = { car := 0x1002, cdr := 0x2000 } := by decide
    have hb : ({ car := 0x1002, cdr := 0x2000 } : qn_Object).byte 0 = 2 := by decide
    have h4 : tag c 0x2000 = .ok 2 := by
      simp only [tag, loadByte, locate, hloc, ha, hb]
    have h1 : type c 0x2000 = .ok 0 := by
      simp only [type, h4, bind, Except.bind, pure, Except.pure]
      rfl
    have h3 : cdr c 0x2000 = .ok 0x2000 := by
      simp only [cdr, loadWord, locate, hloc8, ha]
      rfl
    have h5 : storeByte c 0x2000 (2 ||| GCMARKBIT) = .ok
        { c with arena := fun j => if j = 0 then { car := 0x1002, cdr := 0x2000 }
                                    else c.arena j } := by
      simp only [storeByte, locate, hloc, ha, hw]
    have ih := qn_mark_marked_self_loop fuel
      { c with arena := fun j => if j = 0 then { car := 0x1002, cdr := 0x2000 }
                                  else c.arena j } hn ho hc (by simp)
    have h6 : type { c with arena := fun j => if j = 0 then { car := 0x1002, cdr := 0x2000 }
                                  else c.arena j } 0x2000 = .ok QN_TPAIR := by
      have : tag { c with arena := fun j => if j = 0 then { car := 0x1002, cdr := 0x2000 }
                                  else c.arena j } 0x2000 = .ok 2 := by
        simp only [tag, loadByte, locate, hloc, if_pos, hb]
      simp only [type, this, bind, Except.bind, pure, Except.pure]
      rfl
    rw [qn_mark_step_pair h1 (by decide) h3 h4 h5 h6, ih]
    rfl

/-- C15 (code defect): on the one-cell heap `self_loop`, whose pair `p` has its
rest slot referencing `p` itself, `qn_mark(ctx, p)` does not terminate: no
amount of fuel lets it return.  After the first visit `p` carries the mark
flag (tag `0x02`), yet `type(p) & GCMARKBIT` is `0` and `p` is traversed
again. -/
theorem qn_mark_diverges_on_self_loop :
    self_loop.objects_count = 1 ∧ car self_loop 0x2000 = .ok self_loop.nil_addr ∧
    cdr self_loop 0x2000 = .ok 0x2000 ∧
    (∀ fuel : Nat, qn_mark fuel self_loop 0x2000 = .error .nofuel) ∧
    ∃ c1, storeByte self_loop 0x2000 (0 ||| GCMARKBIT) = .ok c1 ∧ tag c1 0x2000 = .ok 0x02 ∧
      type c1 0x2000 = .ok 0 ∧ 0 &&& GCMARKBIT = 0 := by
  refine ⟨rfl, rfl, rfl, fun fuel => ?_, _, rfl, rfl, rfl, rfl⟩
  cases fuel with
  | zero => rfl
  | succ fuel =>
    have h5 : storeByte self_loop 0x2000 (0 ||| GCMARKBIT) = .ok
        { self_loop with arena := fun j => if j = 0 then { car := 0x1002, cdr := 0x2000 }
                                    else self_loop.arena j } := by
      have hw : ({ car := 0x1000, cdr := 0x2000 } : qn_Object).withByte 0 (0 ||| GCMARKBIT)
          = { car := 0x1002, cdr := 0x2000 } := by decide
      have hloc : locateAt self_loop.nil_addr self_loop.objects self_loop.objects_count 0x2000
          = some (.cell 0 0) := rfl
      have ha : self_loop.arena 0 = { car := 0x1000, cdr := 0x2000 } := rfl
      simp only [storeByte, locate, hloc, ha, hw]
    have h1 : type self_loop 0x2000 = .ok 0 := rfl
    have h3 : cdr self_loop 0x2000 = .ok 0x2000 := rfl
    have h4 : tag self_loop 0x2000 = .ok 0 := rfl
    have h6 : type { self_loop with
        arena := fun j => if j = 0 then { car := 0x1002, cdr := 0x2000 }
                          else self_loop.arena j } 0x2000 = .ok QN_TPAIR := rfl
    rw [qn_mark_step_pair h1 (by decide) h3 h4 h5 h6,
      qn_mark_marked_self_loop fuel _ rfl rfl rfl (by simp)]
    rfl
/-! ## Mark flags after a collection -/

theorem tag_cellAddr {c : qn_Context} {j : Nat} (hL : Layout c) (hj : j < c.objects_count) :
    tag c (c.objects + OBJSIZE * j) = .ok ((c.arena j).car % 256) := by
  simp [tag, loadByte, locate, (locate_cellAddr hL hj).1, qn_Object.byte, byteAt]

/-- Mark flags after a returning collection: in a context with aligned,
disjoint `nil` and arena in which no arena cell has a tag byte with the free
discriminator (`tag >> 2 = QN_TFREE`), whenever `garbagecollector` returns, bit
`GCMARKBIT` of the tag of every arena cell is clear.  Without the assumption on
the tags, every arena cell whose mark bit is set after the collection is a
cell tagged free that the sweep skipped. -/
theorem no_mark_flag_after_collection (fuel : Nat) (ctx c : qn_Context) (hL : Layout ctx)
    (hfree : ∀ j, j < ctx.objects_count → ((ctx.arena j).car % 256) >>> 2 ≠ QN_TFREE)
    (hgc : garbagecollector fuel ctx = .ok c) :
    (∀ j, j < c.objects_count →
      ∃ t, tag c (c.objects + OBJSIZE * j) = .ok t ∧ t &&& GCMARKBIT = 0) ∧
    (∀ ctx2 c2 : qn_Context, Layout ctx2 → garbagecollector fuel ctx2 = .ok c2 →
      ∀ j, j < c2.objects_count →
        ∃ t, tag c2 (c2.objects + OBJSIZE * j) = .ok t ∧
          (t &&& GCMARKBIT = 0 ∨ t >>> 2 = QN_TFREE)) := by
  have hgen : ∀ ctx2 c2 : qn_Context, Layout ctx2 → garbagecollector fuel ctx2 = .ok c2 →
      SameFrame ctx2 c2 ∧ ∀ j, j < c2.objects_count →
        tag c2 (c2.objects + OBJSIZE * j) = .ok ((c2.arena j).car % 256) ∧
        ((c2.arena j).car % 256 &&& GCMARKBIT = 0 ∨
          (((ctx2.arena j).car % 256) >>> 2 = QN_TFREE ∧
            ((c2.arena j).car % 256) >>> 2 = QN_TFREE)) := by
    intro ctx2 c2 hL2 h2
    have hfr := ((sat_garbagecollector fuel ctx2).of_ok h2).1
    have hco := (sat_garbagecollector_tags fuel ctx2 hL2).of_ok h2
    exact ⟨hfr, fun j hj =>
      ⟨tag_cellAddr (hL2.frame hfr) hj, hco.2 j (by rw [← hfr.objects_count]; exact hj)⟩⟩
  constructor
  · intro j hj
    obtain ⟨hfr, h⟩ := hgen ctx c hL hgc
    obtain ⟨ht, hc⟩ := h j hj
    refine ⟨_, ht, ?_⟩
    rcases hc with hc | ⟨hc, _⟩
    · exact hc
    · exact absurd hc (hfree j (by rw [← hfr.objects_count]; exact hj))
  · intro ctx2 c2 hL2 h2 j hj
    obtain ⟨ht, hc⟩ := (hgen ctx2 c2 hL2 h2).2 j hj
    refine ⟨_, ht, ?_⟩
    rcases hc with hc | ⟨_, hc⟩
    · exact Or.inl hc
    · exact Or.inr hc

theorem no_mark_flag_after_collection_witness :
    Layout rooted_pair ∧ rooted_pair.gcstack_idx = 1 ∧ rooted_pair.gcstack 0 = 0x2000 ∧
    (∀ j, j < rooted_pair.objects_count →
      ((rooted_pair.arena j).car % 256) >>> 2 ≠ QN_TFREE) ∧
    ∃ c, garbagecollector 8 rooted_pair = .ok c ∧
      (∀ j, j < c.objects_count →
        ∃ t, tag c (c.objects + OBJSIZE * j) = .ok t ∧ t &&& GCMARKBIT = 0) ∧
      (∀ ctx2 c2 : qn_Context, Layout ctx2 → garbagecollector 8 ctx2 = .ok c2 →
        ∀ j, j < c2.objects_count →
          ∃ t, tag c2 (c2.objects + OBJSIZE * j) = .ok t ∧
            (t &&& GCMARKBIT = 0 ∨ t >>> 2 = QN_TFREE)) :=
  ⟨by decide, rfl, rfl, by decide, _, rfl,
    no_mark_flag_after_collection 8 rooted_pair _ (by decide) (by decide) rfl⟩

/-- C16 (code defect): `stale_free` is reached by four `qn_cons` calls and one
`qn_car`; its free list is empty, and the cell `0x2000`, an entry of the root
stack, has the tag byte `QN_TFREE << 2 | 1`.  The collection returns, for every
amount of fuel from 2 on, and afterwards the cell `0x2000` carries the mark
flag: its tag byte is `7`, the mark phase having set bit `GCMARKBIT` and the
sweep having skipped the cell at `type(o) == QN_TFREE`.  The same holds after
the next `qn_cons`, which runs that collection and takes the cell `0x2010`. -/
theorem collection_leaves_mark_flag :
    stale_free.objects_count = 2 ∧ isnil stale_free stale_free.freelist = true ∧
    stale_free.gcstack_idx = 4 ∧ stale_free.gcstack 1 = 0x2000 ∧
    tag stale_free 0x2000 = .ok (QN_TFREE <<< 2 ||| 1) ∧
    tag stale_free 0x2010 = .ok 0 ∧
    (∀ n, ∃ c, garbagecollector (n + 2) stale_free = .ok c ∧ c.objects = 0x2000 ∧
      tag c 0x2000 = .ok 7) ∧
    7 &&& GCMARKBIT ≠ 0 ∧ 7 >>> 2 = QN_TFREE ∧
    (∀ n, ∃ c, qn_cons (n + 2) stale_free stale_free.nil_addr stale_free.nil_addr
        = .ok (0x2010, c) ∧ tag c 0x2000 = .ok 7) :=
  ⟨rfl, rfl, rfl, rfl, rfl, rfl, fun _ => ⟨_, rfl, rfl, rfl⟩, by decide, by decide,
    fun _ => ⟨_, rfl, rfl⟩⟩
/-! ## String chunks -/

/-- C17 (code defect): `qn_string(ctx, "ab")`, for a string shorter than
`STRBUF_SIZE`, takes three cells from a free list of six: the chain is the head
chunk `0x2050`, which holds no byte, then `0x2040` holding `'a'` alone and
`0x2030` holding `'b'` alone.  `buildstring` allocated a new chunk although the
tail chunk had unused bytes. -/
theorem qn_string_one_chunk_per_char :
    [97, 98].length < STRBUF_SIZE ∧
    lseg (fresh 6) (fresh 6).freelist [0x2050, 0x2040, 0x2030, 0x2020, 0x2010, 0x2000]
      (fresh 6).nil_addr ∧
    ∃ o c, qn_string 8 (fresh 6) [97, 98] = .ok (o, c) ∧
      lseg c c.freelist [0x2020, 0x2010, 0x2000] c.nil_addr ∧
      lseg c o [0x2050, 0x2040, 0x2030] c.nil_addr ∧
      strbuf_get c 0x2050 0 = .ok 0 ∧
      strbuf_get c 0x2040 0 = .ok 97 ∧ strbuf_get c 0x2040 1 = .ok 0 ∧
      strbuf_get c 0x2030 0 = .ok 98 ∧ strbuf_get c 0x2030 1 = .ok 0 :=
  ⟨by decide, by decide, _, _, rfl, by decide, by decide, rfl, rfl, rfl, rfl, rfl⟩

/-- C19 (code defect): `streq(qn_string(ctx, "foo"), "foo")` returns `0`: the
head chunk that `qn_string` builds holds no byte, so the first comparison of
`streq` is of the byte `0` with `'f'`. -/
theorem streq_of_built_string_is_zero :
    ∃ o c, qn_string 8 (fresh 6) str_foo = .ok (o, c) ∧
      strbuf_get c o 0 = .ok 0 ∧ streq 8 c o str_foo = .ok 0 :=
  ⟨_, _, rfl, rfl, rfl⟩

/-! ## The root stack across `qn_string` -/

theorem tag_nil (c : qn_Context) : tag c c.nil_addr = .ok (c.nil.car % 256) := by
  simp [tag, loadByte, locate, locate_nil, qn_Object.byte, byteAt]

set_option maxRecDepth 100000 in
theorem or_mark_of_marked : ∀ x : Nat, x < 256 → x &&& 2 ≠ 0 → x ||| 2 = x := by decide

/-- C20 (counterexample): in `two_pairs` the tag byte of `nil` is `0x19` and
`qn_type` reports `QN_TPAIR` for `nil`; after `garbagecollector` the tag byte
is `0x1b` and `qn_type` reports `QN_TNIL`.  A single `qn_mark(ctx, nil)`
changes the tag byte in the same way. -/
theorem nil_tag_changed_by_collection :
    tag two_pairs two_pairs.nil_addr = .ok 0x19 ∧
    qn_type two_pairs two_pairs.nil_addr = .ok QN_TPAIR ∧
    (∃ c, garbagecollector 8 two_pairs = .ok c ∧ tag c c.nil_addr = .ok 0x1b ∧
      qn_type c c.nil_addr = .ok QN_TNIL) ∧
    (∃ c, qn_mark 8 (fresh 1) (fresh 1).nil_addr = .ok c ∧ tag c c.nil_addr = .ok 0x1b) :=
  ⟨rfl, rfl, ⟨_, rfl, rfl, rfl⟩, ⟨_, rfl, rfl⟩⟩

/-- C20 (amended): `qn_mark` and `garbagecollector` change the tag byte of `nil`
at most by setting `GCMARKBIT` in it.  In a context with aligned, disjoint
`nil` and arena, whenever `qn_mark` or `garbagecollector` returns, the tag
byte of `nil` is the tag byte before the call, or that byte with bit `0x2`
set; and when `nil` already carries the flag, its tag byte and the kind that
`qn_type` reports for it are the same after the call as before. -/
theorem nil_tag_changes_only_by_mark_bit (fuel : Nat) (ctx : qn_Context) (hL : Layout ctx) :
    ∃ t, tag ctx ctx.nil_addr = .ok t ∧
      (∀ o c, qn_mark fuel ctx o = .ok c →
        (tag c c.nil_addr = .ok t ∨ tag c c.nil_addr = .ok (t ||| GCMARKBIT)) ∧
        (t &&& GCMARKBIT ≠ 0 → tag c c.nil_addr = .ok t ∧
          qn_type c c.nil_addr = qn_type ctx ctx.nil_addr)) ∧
      (∀ c, garbagecollector fuel ctx = .ok c →
        (tag c c.nil_addr = .ok t ∨ tag c c.nil_addr = .ok (t ||| GCMARKBIT)) ∧
        (t &&& GCMARKBIT ≠ 0 → tag c c.nil_addr = .ok t ∧
          qn_type c c.nil_addr = qn_type ctx ctx.nil_addr)) := by
  have key : ∀ c : qn_Context, Marked ctx.nil c.nil →
      (tag c c.nil_addr = .ok (ctx.nil.car % 256) ∨
        tag c c.nil_addr = .ok (ctx.nil.car % 256 ||| GCMARKBIT)) ∧
      (ctx.nil.car % 256 &&& GCMARKBIT ≠ 0 → tag c c.nil_addr = .ok (ctx.nil.car % 256) ∧
        qn_type c c.nil_addr = qn_type ctx ctx.nil_addr) := by
    intro c hm
    have hdis : tag c c.nil_addr = .ok (ctx.nil.car % 256) ∨
        tag c c.nil_addr = .ok (ctx.nil.car % 256 ||| GCMARKBIT) := by
      rw [tag_nil]
      rcases hm with h | h
      · exact Or.inl (by rw [h])
      · exact Or.inr (by rw [h])
    refine ⟨hdis, fun hflag => ?_⟩
    have hsame : ctx.nil.car % 256 ||| GCMARKBIT = ctx.nil.car % 256 :=
      or_mark_of_marked _ (Nat.mod_lt _ (by decide)) hflag
    have ht : tag c c.nil_addr = .ok (ctx.nil.car % 256) := by
      rcases hdis with h | h
      · exact h
      · rw [h, hsame]
    refine ⟨ht, ?_⟩
    simp only [qn_type, type, ht, tag_nil ctx]
  refine ⟨_, tag_nil ctx, fun o c h => ?_, fun c h => ?_⟩
  · exact key c ((sat_qn_mark_tags fuel ctx o).of_ok h).1
  · exact key c ((sat_garbagecollector_tags fuel ctx hL).of_ok h).1

theorem nil_tag_changes_only_by_mark_bit_witness :
    Layout two_pairs ∧
    (∃ c, garbagecollector 8 two_pairs = .ok c) ∧
    ∃ t, tag two_pairs two_pairs.nil_addr = .ok t ∧
      (∀ o c, qn_mark 8 two_pairs o = .ok c →
        (tag c c.nil_addr = .ok t ∨ tag c c.nil_addr = .ok (t ||| GCMARKBIT)) ∧
        (t &&& GCMARKBIT ≠ 0 → tag c c.nil_addr = .ok t ∧
          qn_type c c.nil_addr = qn_type two_pairs two_pairs.nil_addr)) ∧
      (∀ c, garbagecollector 8 two_pairs = .ok c →
        (tag c c.nil_addr = .ok t ∨ tag c c.nil_addr = .ok (t ||| GCMARKBIT)) ∧
        (t &&& GCMARKBIT ≠ 0 → tag c c.nil_addr = .ok t ∧
          qn_type c c.nil_addr = qn_type two_pairs two_pairs.nil_addr)) :=
  ⟨by decide, ⟨_, rfl⟩, nil_tag_changes_only_by_mark_bit 8 two_pairs (by decide)⟩

end Qn
